import Mathlib

/-!
Verification development for the object-editing core of CellProfiler
(`cellprofiler/gui/editobjectsdlg.py`).  The Python source is shallowly
embedded: label planes become lists of rows of naturals, the IJV raster
flattening and the sparse-diff undo engine are translated function by
function, and the interactive geometry (control-point chains, drag
validation, the chain simplifier) is modelled over exact rationals.
Functions imported by the dialog from modules that are not part of the
source under study (`cellprofiler.cpmath.*`, `cellprofiler.objects`,
matplotlib) are modelled from the specification; each such definition
carries a comment saying so.
-/

namespace CPEdit

/-- IJV triple `(row, col, objectId)`: one labeled pixel, the unit of the
flattened raster representation (`calculate_ijv`). -/
abbrev T : Type := ℕ × ℕ × ℕ

/-- Epoch-tagged IJV triple: the fourth `old_new_indicator` column that
`record_undo` stacks next to the triples (0 = current, 1 = previous). -/
abbrev Tagged : Type := T × ℕ

/-- Lexicographic key of a bare triple, `(i, j, v)` major-to-minor. -/
def tK (t : T) : Lex (ℕ × Lex (ℕ × ℕ)) := toLex (t.1, toLex (t.2.1, t.2.2))

/-- Lexicographic sort key used by `np.lexsort((tag, v, j, i))`:
rows are ordered by `(i, j, v, tag)`. -/
def tKey (x : Tagged) : Lex (Lex (ℕ × Lex (ℕ × ℕ)) × ℕ) := toLex (tK x.1, x.2)

/-- Weak order on tagged triples realised by the lexsort. -/
def rLe (x y : Tagged) : Prop := tKey x ≤ tKey y

/-- Strict order on tagged triples (distinct sort keys). -/
def sLt (x y : Tagged) : Prop := tKey x < tKey y

instance : DecidableRel rLe := fun x y => inferInstanceAs (Decidable (tKey x ≤ tKey y))

instance : DecidableRel sLt := fun x y => inferInstanceAs (Decidable (tKey x < tKey y))

instance : IsTotal Tagged rLe := ⟨fun a b => le_total (tKey a) (tKey b)⟩

instance : IsTrans Tagged rLe := ⟨fun _ _ _ h h2 => le_trans h h2⟩

instance : IsAntisymm Tagged sLt :=
  ⟨fun _ _ h h2 => absurd (lt_trans h h2) (lt_irrefl _)⟩

/-- Model of `np.lexsort` on the four-column array: a stable sort of the
tagged triples by `(i, j, v, tag)`. -/
def sortT (l : List Tagged) : List Tagged := l.insertionSort rLe

/-- Pair condition marked by `record_undo`: adjacent rows with equal
`(i,j,v)` where the first carries tag 0 (current) and the second tag 1
(previous). -/
def pairMatch (x y : Tagged) : Bool :=
  decide (x.1 = y.1) && decide (x.2 = 0) && decide (y.2 = 1)

/-- Pair condition marked by `undo`: adjacent rows with equal `(i,j,v)`,
regardless of tag. -/
def pairMatchU (x y : Tagged) : Bool := decide (x.1 = y.1)

/-- Faithful rendering of the numpy marking
`matches[1:] = matches[1:] | matches[:-1]; ijvx = ijvx[~matches]`:
row `i` is dropped when the pair flag holds at `i` or at `i - 1`.  The
argument `prev` carries the flag of the preceding pair. -/
def removeMarkedC (p : Tagged → Tagged → Bool) (prev : Bool) :
    List Tagged → List Tagged
  | [] => []
  | [x] => if prev then [] else [x]
  | x :: y :: rest =>
      (if prev || p x y then [] else [x]) ++ removeMarkedC p (p x y) (y :: rest)

/-- Marked rows removed, starting with no carried flag. -/
def removeMarked (p : Tagged → Tagged → Bool) (xs : List Tagged) : List Tagged :=
  removeMarkedC p false xs

/-- Greedy reformulation of the same scan, used for reasoning: adjacent
matched pairs are consumed left to right. -/
def cancelScan (p : Tagged → Tagged → Bool) : List Tagged → List Tagged
  | [] => []
  | [x] => [x]
  | x :: y :: rest =>
      if p x y then cancelScan p rest else x :: cancelScan p (y :: rest)

/-- Non-overlap condition: no element matches both its predecessor and its
successor.  Under it the vectorised marking and the greedy scan agree. -/
def NoTriple (p : Tagged → Tagged → Bool) : List Tagged → Prop
  | x :: y :: z :: rest => (p x y = true → p y z = false) ∧ NoTriple p (y :: z :: rest)
  | _ => True

/-- Tag column restricted to the two epochs 0 (current) and 1 (previous). -/
def Tags01 (l : List Tagged) : Prop := ∀ x ∈ l, x.2 = 0 ∨ x.2 = 1

/-- Test whether some row of `l` has the same `(i,j,v)` as `x` but a
different epoch tag: such rows cancel against `x` in the sorted scan. -/
def oppositeIn (l : List Tagged) (x : Tagged) : Bool :=
  l.any (fun y => decide (y.1 = x.1) && decide (y.2 ≠ x.2))

/-- Current-epoch tagging: `np.column_stack((ijv, np.zeros(...)))`. -/
def tag0 (c : List T) : List Tagged := c.map (fun t => (t, 0))

/-- Previous-epoch tagging: `np.column_stack((last_ijv, np.ones(...)))`. -/
def tag1 (c : List T) : List Tagged := c.map (fun t => (t, 1))

/-- Sparse raster diff computed by `record_undo` (lines 154-193): when the
current raster is empty an empty four-column array is pushed; otherwise the
current triples (tag 0) and previous triples (tag 1) are stacked, lexsorted
by `(i, j, v, tag)`, and adjacent `(0, 1)`-tagged rows with equal triples
are both removed. -/
def recordDiff (cur last : List T) : List Tagged :=
  if cur = [] then []
  else removeMarked pairMatch (sortT (tag0 cur ++ tag1 last))

/-- Reconstruction step of `undo` (lines 195-215): the popped diff is
stacked with the current `last_ijv` (tagged 1), lexsorted, adjacent rows
with equal triples are removed regardless of tag, and the tag column is
dropped. -/
def undoMerge (diff : List Tagged) (last : List T) : List T :=
  (removeMarked pairMatchU (sortT (diff ++ tag1 last))).map (fun x => x.1)

/-- Canonical form of the recorded diff: the current-only triples tagged 0
followed by the previous-only triples tagged 1. -/
def diffCanon (cur last : List T) : List Tagged :=
  tag0 (cur.filter (fun t => decide (¬ t ∈ last))) ++
    tag1 (last.filter (fun t => decide (¬ t ∈ cur)))

/-- Undo-engine state: the snapshot `last_ijv` and the stack of pushed
sparse diffs (stack top at the head). -/
structure UndoEngine where
  last : List T
  stack : List (List Tagged)
deriving DecidableEq

/-- One committed edit whose post-state raster flattens to `cur`: the heart
of `record_undo` (push the diff against the previous snapshot, make `cur`
the new snapshot). -/
def pushSnap (e : UndoEngine) (cur : List T) : UndoEngine :=
  ⟨cur, recordDiff cur e.last :: e.stack⟩

/-- One `undo`: pop the top diff and merge it with the current snapshot.
The source pops unconditionally (an empty stack raises `IndexError`; the
UI disables the undo button in that state), so the empty-stack branch is
modelled as a no-op that our theorems never reach. -/
def popSnap (e : UndoEngine) : UndoEngine :=
  match e.stack with
  | [] => e
  | d :: rest => ⟨undoMerge d e.last, rest⟩

/-- Label plane: a mutable-content 2-D grid of non-negative integers,
stored as a row-major list of rows; zero is background. -/
abbrev Plane : Type := List (List ℕ)

/-- Pixel read; out-of-range reads give background, matching the fact that
`calculate_ijv` only scans indices produced by `np.mgrid` of the dialog
shape. -/
def readPix (p : Plane) (i j : ℕ) : ℕ := (p.getD i []).getD j 0

/-- IJV rows contributed by one plane: the source keeps the nonzero pixels
of `np.column_stack([i[l != 0], j[l != 0], l[l != 0]])`, whose `mgrid`
index arrays enumerate the shape in row-major order. -/
def planeIJV (shape : ℕ × ℕ) (p : Plane) : List T :=
  (List.range shape.1).flatMap (fun i =>
    (List.range shape.2).filterMap (fun j =>
      if readPix p i j ≠ 0 then some (i, j, readPix p i j) else none))

/-- Flattening `calculate_ijv` (lines 240-248): starts from an empty array
and vstacks each plane's nonzero rows in plane order. -/
def calculate_ijv (shape : ℕ × ℕ) (labels : List Plane) : List T :=
  labels.foldl (fun acc l => acc ++ planeIJV shape l) []

/-- Strict row-major order on IJV triples: by row, then by column. -/
def rcLt (a b : T) : Prop := a.1 < b.1 ∨ (a.1 = b.1 ∧ a.2.1 < b.2.1)

instance : DecidableRel rcLt := fun a b =>
  inferInstanceAs (Decidable (a.1 < b.1 ∨ (a.1 = b.1 ∧ a.2.1 < b.2.1)))

/-- Mode tokens of the dialog (the source stores them as strings such as
`"freehanddrawmode"`, `"split1"`, `"split2"`, `"normal"`, `"delete"`). -/
inductive Mode
  | normal
  | splitPickFirst
  | splitPickSecond
  | freehandDraw
  | delete
deriving DecidableEq

/-- Keyboard keys tracked by `pressed_keys`; only Escape matters to the
claims, other keys are abstracted by an index. -/
inductive Key
  | escape
  | other (n : ℕ)
deriving DecidableEq

/-- One matplotlib `Line2D` artist together with its attribute record
(`K_LABEL`, `K_EDITED`, `K_OUTSIDE`).  Control-point coordinates are exact
rationals standing for the Python floats; `pts` is the `(x, y)` data
including the closing duplicate of the first point. -/
structure Artist where
  pts : List (ℚ × ℚ)
  label : ℕ
  edited : Bool
  outside : Bool
deriving DecidableEq

instance : Inhabited Artist := ⟨⟨[], 0, false, false⟩⟩

/-- Editing-session state of `EditObjectsDialog`: the mutable fields read
and written by the embedded operations.  The artist dictionary becomes a
list in insertion order; the freehand in-progress line (which the source
also stores in `active_artist`) is kept as an optional raw chain; the
rectangle-capturing closure `delete_mode_filter` is kept as its bounds. -/
structure Session where
  shape : ℕ × ℕ
  labels : List Plane
  to_keep : List Bool
  artists : List Artist
  undo_stack : List (List Tagged × List Artist)
  last_ijv : List T
  last_artist_save : List Artist
  mode : Mode
  allow_overlap : Bool
  active_artist : Option (List (ℚ × ℚ))
  split_artist : Option (List (ℚ × ℚ))
  delete_mode_artist : Option (List (ℚ × ℚ))
  delete_mode_rect_artist : Option (List (ℚ × ℚ))
  delete_mode_start : Option (ℚ × ℚ)
  delete_mode_filter : Option (ℚ × ℚ × ℚ × ℚ)
  pressed_keys : List Key
deriving DecidableEq

/-- Mouse or key event as delivered by the UI layer: data coordinates,
display coordinates (the identity transform is assumed, since display
scaling is out of scope), and whether the event is inside the editing
axes. -/
structure Event where
  xdata : ℚ
  ydata : ℚ
  x : ℚ
  y : ℚ
  inAxes : Bool
deriving DecidableEq

/-- Numpy shape of a plane: rows and columns of the (rectangular) grid. -/
def planeDims (p : Plane) : ℕ × ℕ := (p.length, (p.getD 0 []).length)

/-- Largest entry of a plane (`np.max(l)` for the nonempty planes the
dialog receives). -/
def planeMax (p : Plane) : ℕ := (p.map (fun row => row.foldl max 0)).foldl max 0

/-- Largest label over all planes, as computed by `reset` (line 1713). -/
def nLabels (labels : List Plane) : ℕ := (labels.map planeMax).foldl max 0

/-- Construction of a session (`__init__` lines 104-152 plus `reset` lines
1711-1724).  An empty plane list fails (`orig_labels[0]` raises); planes of
differing dimensions make the boolean-mask indexing inside `calculate_ijv`
ill-formed, modelled as failure; no other validation exists: the keep
array is sized from the largest label and the first snapshot is taken. -/
def sessionInit (orig_labels : List Plane) (allow_overlap : Bool) :
    Option Session :=
  match orig_labels with
  | [] => none
  | p :: rest =>
      if (p :: rest).all (fun q => planeDims q = planeDims p) then
        some { shape := planeDims p
               labels := p :: rest
               to_keep := List.replicate (nLabels (p :: rest) + 1) true
               artists := []
               undo_stack := []
               last_ijv := calculate_ijv (planeDims p) (p :: rest)
               last_artist_save := []
               mode := Mode.normal
               allow_overlap := allow_overlap
               active_artist := none
               split_artist := none
               delete_mode_artist := none
               delete_mode_rect_artist := none
               delete_mode_start := none
               delete_mode_filter := none
               pressed_keys := [] }
      else none

/-- Session-level `record_undo` (lines 154-193): push the sparse diff of
the current raster against the previous snapshot together with the
previous artist save, then advance both snapshots. -/
def record_undo (s : Session) : Session :=
  let ijv := calculate_ijv s.shape s.labels
  let ijvx := recordDiff ijv s.last_ijv
  { s with undo_stack := (ijvx, s.last_artist_save) :: s.undo_stack
           last_artist_save := s.artists
           last_ijv := ijv }

/-- Modelled from the spec: `cpo.Objects.get_labels`, the restructuring
back-end (spec section 4.4), is not under src/.  It re-derives a plane
list from a flattened `(row, col, id)` set; the packing of objects into
planes is internal to `cellprofiler.objects`, so one plane per distinct
identifier is produced here, which preserves the flattened pixel set. -/
def planeOf (shape : ℕ × ℕ) (ijv : List T) (v : ℕ) : Plane :=
  (List.range shape.1).map (fun i =>
    (List.range shape.2).map (fun j => if (i, j, v) ∈ ijv then v else 0))

/-- Distinct identifiers appearing in a flattened set (first-occurrence
order). -/
def idsOf (ijv : List T) : List ℕ := (ijv.map (fun t => t.2.2)).dedup

/-- Modelled from the spec: plane list rebuilt from an IJV set (see
`planeOf`). -/
def planesFromIJV (shape : ℕ × ℕ) (ijv : List T) : List Plane :=
  (idsOf ijv).map (planeOf shape ijv)

/-- Session-level `undo` (lines 195-238): pop a diff, merge it with the
current snapshot, rebuild the planes from the merged set and reinstate the
saved artists.  The source pops unconditionally (empty stack raises
`IndexError`; the undo button is disabled in that state), so the empty
branch is modelled as a no-op our theorems never reach. -/
def undo (s : Session) : Session :=
  match s.undo_stack with
  | [] => s
  | (ijvx, artist_save) :: rest =>
      let merged := undoMerge ijvx s.last_ijv
      { s with undo_stack := rest
               last_ijv := merged
               last_artist_save := artist_save
               labels := planesFromIJV s.shape merged
               artists := artist_save }

/-- The `remove_label` helper (lines 550-552): clear one identifier from
every plane. -/
def remove_label (s : Session) (object_number : ℕ) : Session :=
  { s with labels := s.labels.map (fun l =>
      l.map (fun row => row.map (fun v => if v = object_number then 0 else v))) }

/-- The `restructure_labels` helper (lines 559-574): flatten to IJV form
and re-derive the plane list. -/
def restructure_labels (s : Session) : Session :=
  { s with labels := planesFromIJV s.shape (calculate_ijv s.shape s.labels) }

/-- Numpy `mask.astype(dtype) * object_number`. -/
def maskToPlane (mask : List (List Bool)) (object_number : ℕ) : Plane :=
  mask.map (fun row => row.map (fun b => if b then object_number else 0))

/-- The `replace_label` helper (lines 554-557). -/
def replace_label (s : Session) (mask : List (List Bool)) (object_number : ℕ) :
    Session :=
  let s1 := remove_label s object_number
  restructure_labels
    { s1 with labels := s1.labels ++ [maskToPlane mask object_number] }

/-- The `add_label` helper (lines 576-582): allocate the next identifier,
extend the keep array and stamp the mask. -/
def add_label (s : Session) (mask : List (List Bool)) : Session :=
  let object_number := s.to_keep.length
  restructure_labels
    { s with to_keep := s.to_keep ++ [true]
             labels := s.labels ++ [maskToPlane mask object_number] }

/-- Modelled from the spec: one even-odd ray crossing test for
`polygon_lines_to_mask` (cpmorphology, not under src/): spec section 4.4
prescribes the standard half-open horizontal-ray rule.  A segment is a
pair of `(i, j)` endpoints; rational division by zero is zero, which a
horizontal edge never reaches because its parity test already fails. -/
def crossesRay (y x : ℚ) (seg : (ℚ × ℚ) × (ℚ × ℚ)) : Bool :=
  let p0 := seg.1
  let p1 := seg.2
  (decide (p0.1 ≤ y) != decide (p1.1 ≤ y)) &&
    decide (x < p0.2 + (y - p0.1) * (p1.2 - p0.2) / (p1.1 - p0.1))

/-- Modelled from the spec: `polygon_lines_to_mask` rasterises a closed
chain given as a list of segments; a pixel is inside when the ray crosses
an odd number of edges. -/
def polygon_lines_to_mask (segs : List ((ℚ × ℚ) × (ℚ × ℚ))) (shape : ℕ × ℕ) :
    List (List Bool) :=
  (List.range shape.1).map (fun i =>
    (List.range shape.2).map (fun j =>
      decide ((segs.countP (fun seg => crossesRay (i : ℚ) (j : ℚ) seg)) % 2 = 1)))

/-- Segment list of an artist in `(i, j)` coordinates: the source calls
`polygon_lines_to_mask(i[:-1], j[:-1], i[1:], j[1:], shape)` where
`j, i = artist.get_data()`. -/
def artistSegs (a : Artist) : List ((ℚ × ℚ) × (ℚ × ℚ)) :=
  let ij := a.pts.map (fun q => (q.2, q.1))
  ij.zip ij.tail

/-- All-background mask of the dialog shape. -/
def zeroMask (shape : ℕ × ℕ) : List (List Bool) :=
  (List.range shape.1).map (fun _ => (List.range shape.2).map (fun _ => false))

/-- Pointwise `mask[m1] = ~mask[m1]` accumulation of `close_label`. -/
def xorMask (m1 m2 : List (List Bool)) : List (List Bool) :=
  List.zipWith (fun r1 r2 => List.zipWith (fun a b => xor a b) r1 r2) m1 m2

/-- The `close_label` helper (lines 1809-1844): if any chain of the label
was edited, rasterise all its chains with even-odd cancellation of holes
and stamp the result; either way the label's artists are dropped. -/
def close_label (s : Session) (label : ℕ) : Session :=
  let my := s.artists.filter (fun a => decide (a.label = label))
  let s1 := { s with artists := s.artists.filter (fun a => decide (a.label ≠ label)) }
  if my.any (fun a => a.edited) then
    let mask := my.foldl
      (fun m a => xorMask m (polygon_lines_to_mask (artistSegs a) s.shape))
      (zeroMask s.shape)
    replace_label s1 mask label
  else s1

/-- Modelled from the spec: `make_control_points` (lines 1733-1807)
regenerates the editable chains of one object by contour extraction
(8-connected outlines, 4-connected holes traced by `scipy.ndimage.label`
and `get_outline_pts`, neither under src/) followed by simplification.
The raster is not touched; only the ownership tags of the regenerated
artists are relevant to the raster-level claims settled here, so the chain
geometry itself is left unspecified. -/
def make_control_points (s : Session) (object_number : ℕ) : Session :=
  { s with artists := s.artists ++ [⟨[], object_number, false, true⟩] }

/-- Sorted distinct labels of the open artists: `np.unique` (line 1063). -/
def unique_labels (artists : List Artist) : List ℕ :=
  ((artists.map (fun a => a.label)).dedup).insertionSort (fun a b => a ≤ b)

/-- One step of the mask-and-erase loop of `join_objects` (lines
1077-1080): the plane's selected pixels are added to the mask, then
cleared.  `to_join[label]` is boolean-array indexing by pixel value,
modelled as membership in the selected identifier list. -/
def erasePlane (sel : List ℕ) (l : Plane) : Plane :=
  l.map (fun row => row.map (fun v => if v ∈ sel then 0 else v))

/-- Union mask of the selected identifiers over the dialog shape.  The
source interleaves accumulation and erasure plane by plane; since each
plane's contribution is read before that plane is cleared, the result is
the union over the original planes. -/
def joinMask (shape : ℕ × ℕ) (labels : List Plane) (sel : List ℕ) :
    List (List Bool) :=
  (List.range shape.1).map (fun i =>
    (List.range shape.2).map (fun j =>
      labels.any (fun l => decide (readPix l i j ∈ sel))))

/-- The `join_objects` operation (lines 1062-1089): with fewer than two
distinct open labels nothing happens; otherwise every selected label is
closed, their pixels are unioned and erased, the union is stamped under
the smallest selected identifier, the planes are restructured, the merged
object's chains are regenerated and an undo record is pushed. -/
def join_objects (s : Session) : Session :=
  let all_labels := unique_labels s.artists
  if all_labels.length < 2 then s
  else
    let object_number := all_labels.headD 0
    let s1 := all_labels.foldl close_label s
    let mask := joinMask s1.shape s1.labels all_labels
    let s2 := restructure_labels
      { s1 with labels := s1.labels.map (erasePlane all_labels) ++
          [maskToPlane mask object_number] }
    record_undo (make_control_points s2 object_number)

/-- Explicit rational minimum, reducible in the kernel. -/
def rmin (a b : ℚ) : ℚ := if a ≤ b then a else b

/-- Explicit rational maximum, reducible in the kernel. -/
def rmax (a b : ℚ) : ℚ := if a ≤ b then b else a

/-- Explicit rational absolute value, reducible in the kernel. -/
def rabs (q : ℚ) : ℚ := if q < 0 then -q else q

/-- Squared euclidean distance between two points. -/
def d2pt (a b : ℚ × ℚ) : ℚ := (a.1 - b.1) ^ 2 + (a.2 - b.2) ^ 2

/-- First-occurrence argmin with its value (`np.argmin` semantics). -/
def argminQ (l : List ℚ) : Option (ℕ × ℚ) :=
  l.enum.foldl (fun acc kv =>
    match acc with
    | none => some kv
    | some best => if kv.2 < best.2 then some kv else some best) none

/-- First-occurrence argmax with its value (`np.argmax` semantics). -/
def argmaxQ (l : List ℚ) : Option (ℕ × ℚ) :=
  l.enum.foldl (fun acc kv =>
    match acc with
    | none => some kv
    | some best => if best.2 < kv.2 then some kv else some best) none

/-- Hit-test tolerance in pixels (`epsilon = 5`, line 59). -/
def epsilon : ℕ := 5

/-- The `get_control_point` helper (lines 725-744): nearest control point
over all artists (closing duplicates excluded) within `epsilon`, expressed
on squared distances; display scaling being out of scope, the artist
transform is the identity, so display and data coordinates agree.  An
artist with an empty point list is skipped (`np.argmin` of an empty array
raises; such artists do not occur).  Returns the artist position and the
point index. -/
def get_control_point (artists : List Artist) (ev : Event) : Option (ℕ × ℕ) :=
  let best := artists.enum.foldl (fun acc ka =>
    let data := ka.2.pts.dropLast
    match argminQ (data.map (fun q => d2pt q (ev.x, ev.y))) with
    | none => acc
    | some id2 =>
        let better := match acc with
          | none => true
          | some b3 => decide (id2.2 < b3.1)
        if decide (id2.2 < (epsilon : ℚ) ^ 2) && better then
          some (id2.2, ka.1, id2.1)
        else acc) none
  best.map (fun b => (b.2.1, b.2.2))

/-- The `delete_artist` helper (lines 1176-1193): drop the artist; if it
was the label's last chain, clear the label from the raster, otherwise
mark the label's remaining chains edited. -/
def delete_artist (s : Session) (ai : ℕ) : Session :=
  let object_number := (s.artists.getD ai default).label
  let artists2 := s.artists.eraseIdx ai
  if artists2.all (fun d => decide (d.label ≠ object_number)) then
    remove_label { s with artists := artists2 } object_number
  else
    { s with artists := artists2.map (fun d =>
        if d.label = object_number then { d with edited := true } else d) }

/-- The `delete_control_point` operation (lines 1160-1174): pick the
nearest control point within tolerance; with fewer than 4 stored points
the whole artist is deleted, otherwise the point is removed and the chain
re-closed; either way an undo record is pushed. -/
def delete_control_point (s : Session) (ev : Event) : Session :=
  match get_control_point s.artists ev with
  | none => s
  | some ai_pi =>
      let ai := ai_pi.1
      let pi2 := ai_pi.2
      let art := s.artists.getD ai default
      if art.pts.length < 4 then
        record_undo (delete_artist s ai)
      else
        let l := art.pts
        let l2 := l.take pi2 ++ (l.drop (pi2 + 1)).dropLast
        let l3 := l2 ++ l2.take 1
        let art2 : Artist := { art with pts := l3, edited := true }
        record_undo { s with artists := s.artists.set ai art2 }

/-- The `new_object` operation (lines 1195-1218): allocate the next
identifier, extend the keep array, add a fresh closed 13-point artist
around the click and push an undo record.  The source computes the ring as
a radius-20 circle (`20 * cos/sin` of 13 angles, clamped to the shape);
its trigonometric coordinates are not exactly representable, so the ring
is a parameter here. -/
def new_object (s : Session) (ring : List (ℚ × ℚ)) : Session :=
  let object_number := s.to_keep.length
  record_undo { s with to_keep := s.to_keep ++ [true]
                       artists := s.artists ++ [⟨ring, object_number, true, true⟩] }

/-- The `remove_artists` handler (lines 1220-1224, Escape in normal
mode). -/
def remove_artists (s : Session) : Session := { s with artists := [] }

/-- The `exit_split_mode` handler (lines 1261-1268). -/
def exit_split_mode (s : Session) : Session :=
  let s1 := if s.mode = Mode.splitPickSecond then { s with split_artist := none }
    else s
  { s1 with mode := Mode.normal }

/-- The `exit_delete_mode` handler (lines 1675-1688).  Note that
`delete_mode_filter` is deliberately not cleared, as in the source. -/
def exit_delete_mode (s : Session) : Session :=
  { s with delete_mode_artist := none
           delete_mode_rect_artist := none
           delete_mode_start := none
           mode := Mode.normal }

/-- The `exit_freehand_draw_mode` handler (lines 1519-1525). -/
def exit_freehand_draw_mode (s : Session) : Session :=
  { s with active_artist := none, mode := Mode.normal }

/-- Set-insertion into `pressed_keys`. -/
def addKey (ks : List Key) (k : Key) : List Key :=
  if k ∈ ks then ks else ks ++ [k]

/-- The `on_key_down` dispatch (lines 800-836) specialised to the Escape
key: normal mode discards the open artists; the split, delete and
freehand-draw modes run their exit handlers (freehand exits on any key,
hence in particular on Escape). -/
def on_key_down_escape (s : Session) : Session :=
  let s1 := { s with pressed_keys := addKey s.pressed_keys Key.escape }
  match s1.mode with
  | Mode.normal => remove_artists s1
  | Mode.splitPickFirst => exit_split_mode s1
  | Mode.splitPickSecond => exit_split_mode s1
  | Mode.delete => exit_delete_mode s1
  | Mode.freehandDraw => exit_freehand_draw_mode s1

/-- Numpy `np.sign`. -/
def sgn (q : ℚ) : ℤ := if 0 < q then 1 else if q < 0 then -1 else 0

/-- Modelled from the spec: `distance2_to_line` (cpmorphology, not under
src/): squared distance from a point to the infinite line through `l0`
and `l1` (to the point itself when they coincide), per spec section
4.5. -/
def distance2_to_line (p l0 l1 : ℚ × ℚ) : ℚ :=
  if l0 = l1 then d2pt p l0
  else ((l1.1 - l0.1) * (p.2 - l0.2) - (l1.2 - l0.2) * (p.1 - l0.1)) ^ 2 /
    d2pt l1 l0

/-- Machine epsilon of `np.float32`. -/
def f32eps : ℚ := 1 / 2 ^ 23

/-- The per-edge on-segment exception of the drag handler (lines 983-994):
squared distance to the edge line below machine epsilon and the candidate
strictly between the endpoints by coordinate sign in both x and y. -/
def onSegTest (newPt l0 l1 : ℚ × ℚ) : Bool :=
  decide (distance2_to_line newPt l0 l1 < f32eps) &&
    decide (sgn (newPt.1 - l0.1) ≠ sgn (newPt.1 - l1.1)) &&
    decide (sgn (newPt.2 - l0.2) ≠ sgn (newPt.2 - l1.2))

/-- Consecutive-point segments of a vertex list. -/
def segsOf (pts : List (ℚ × ℚ)) : List ((ℚ × ℚ) × (ℚ × ℚ)) := pts.zip pts.tail

/-- Vectorised `any(on_segment)` over an artist's edges. -/
def onSegmentAny (newPt : ℚ × ℚ) (pts : List (ℚ × ℚ)) : Bool :=
  (segsOf pts).any (fun seg => onSegTest newPt seg.1 seg.2)

/-- Orientation sign of the triangle `a b c`. -/
def orient (a b c : ℚ × ℚ) : ℤ :=
  sgn ((b.1 - a.1) * (c.2 - a.2) - (b.2 - a.2) * (c.1 - a.1))

/-- Axis-aligned bounding-box membership, used for collinear touching. -/
def inBox (a b c : ℚ × ℚ) : Bool :=
  decide (rmin a.1 b.1 ≤ c.1) && decide (c.1 ≤ rmax a.1 b.1) &&
    decide (rmin a.2 b.2 ≤ c.2) && decide (c.2 ≤ rmax a.2 b.2)

/-- Modelled from the spec: matplotlib `Path.intersects_path` with
`filled=False` is an external dependency; spec section 4.5 prescribes
proper segment intersection with touching tolerated, which is the
standard orientation-based segment intersection test. -/
def segsIntersect (p1 p2 q1 q2 : ℚ × ℚ) : Bool :=
  let d1 := orient q1 q2 p1
  let d2 := orient q1 q2 p2
  let d3 := orient p1 p2 q1
  let d4 := orient p1 p2 q2
  (decide (d1 * d2 < 0) && decide (d3 * d4 < 0)) ||
    (decide (d1 = 0) && inBox q1 q2 p1) ||
    (decide (d2 = 0) && inBox q1 q2 p2) ||
    (decide (d3 = 0) && inBox p1 p2 q1) ||
    (decide (d4 = 0) && inBox p1 p2 q2)

/-- Some edge of the first polyline meets some edge of the second. -/
def pathsIntersect (pts1 pts2 : List (ℚ × ℚ)) : Bool :=
  (segsOf pts1).any (fun s1 => (segsOf pts2).any (fun s2 =>
    segsIntersect s1.1 s1.2 s2.1 s2.2))

/-- Clamp into `[lo, hi]` as `min(hi, max(q, lo))`. -/
def clampQ (lo hi q : ℚ) : ℚ := rmin hi (rmax q lo)

/-- Numpy `int()` truncation of a nonnegative rational. -/
def ratToNat (q : ℚ) : ℕ := q.floor.toNat

/-- Rotated open chain with the four edges adjacent to the dragged point
stripped (`xx, yy = hstack((d[idx:], d[:idx+1]))` then `[2:-2]`, lines
972-978). -/
def strippedChain (data : List (ℚ × ℚ)) (activeIndex : ℕ) : List (ℚ × ℚ) :=
  let rot := data.drop activeIndex ++ data.take (activeIndex + 1)
  ((rot.drop 2).dropLast).dropLast

/-- Verdict of one loop iteration of the drag handler (lines 965-996) for
the artist at position `ka.1`: `true` when this artist causes the early
`return` that rejects the move. -/
def artistBlocksDrag (allowOverlap : Bool) (objectNumber : ℕ)
    (data : List (ℚ × ℚ)) (nPts activeIndex : ℕ) (newPt : ℚ × ℚ)
    (path3 : List (ℚ × ℚ)) (activePos : ℕ) (ka : ℕ × Artist) : Bool :=
  if allowOverlap && decide (ka.2.label ≠ objectNumber) then false
  else
    let xyd :=
      if ka.1 = activePos then
        if nPts ≤ 4 then none
        else some (strippedChain data activeIndex)
      else some ka.2.pts
    match xyd with
    | none => false
    | some pts =>
        if onSegmentAny newPt pts then false
        else pathsIntersect path3 pts

/-- Clamped and `int`-truncated candidate position `new_pt` of the drag
handler (lines 959-962). -/
def dragNewPt (s : Session) (ev : Event) : ℚ × ℚ :=
  let ydataQ := clampQ 0 ((s.shape.1 : ℚ) - 1) ev.ydata
  let xdataQ := clampQ 0 ((s.shape.2 : ℚ) - 1) ev.xdata
  ((ratToNat xdataQ : ℚ), (ratToNat ydataQ : ℚ))

/-- Candidate edge pair `Path((before_pt, new_pt, after_pt))` of the drag
handler (lines 954-963). -/
def dragPath3 (s : Session) (activeIndex : ℕ) (ev : Event)
    (activeArtist : Artist) : List (ℚ × ℚ) :=
  let data := activeArtist.pts.dropLast
  let nPts := data.length
  let beforePt := data.getD ((nPts - 1 + activeIndex) % nPts) (0, 0)
  let afterPt := data.getD ((activeIndex + 1) % nPts) (0, 0)
  [beforePt, dragNewPt s ev, afterPt]

/-- Whether the artist loop of the drag handler hits its early `return`:
some artist survives the overlap filter, the self-stripping and the
on-segment exception, and intersects the candidate edge pair. -/
def dragBlocked (s : Session) (activePos activeIndex : ℕ) (ev : Event)
    (activeArtist : Artist) : Bool :=
  s.artists.enum.any (artistBlocksDrag s.allow_overlap activeArtist.label
    activeArtist.pts.dropLast activeArtist.pts.dropLast.length activeIndex
    (dragNewPt s ev) (dragPath3 s activeIndex ev activeArtist) activePos)

/-- The `handle_mouse_moved_active_mode` drag handler (lines 944-1012):
the candidate edge pair is tested against every artist (same-object only
when overlap is allowed; for the active artist itself the four adjacent
edges are stripped and chains of at most 4 distinct points are skipped);
an artist on whose edge the candidate lands exactly is skipped; any
surviving intersection rejects the move, otherwise the dragged point (and
the closing duplicate when it is the first point) is moved to the clamped
position. -/
def handle_mouse_moved_active_mode (s : Session) (activePos activeIndex : ℕ)
    (ev : Event) : Session :=
  if ¬ ev.inAxes then s else
  match s.artists.get? activePos with
  | none => s
  | some activeArtist =>
      if dragBlocked s activePos activeIndex ev activeArtist then s
      else
        let ydataQ := clampQ 0 ((s.shape.1 : ℚ) - 1) ev.ydata
        let xdataQ := clampQ 0 ((s.shape.2 : ℚ) - 1) ev.xdata
        let full := activeArtist.pts
        let upd1 := full.set activeIndex (xdataQ, ydataQ)
        let upd2 := if activeIndex = 0 then upd1.set (full.length - 1) (xdataQ, ydataQ)
          else upd1
        let art2 : Artist := { activeArtist with pts := upd2, edited := true }
        { s with artists := s.artists.set activePos art2 }

/-- Modelled from the spec: `triangle_areas` (cpmorphology, not under
src/): the area of the triangle spanned by three points, used as the
deviation measure of the simplifier (spec section 4.3). -/
def triangle_areas (a b c : ℚ × ℚ) : ℚ :=
  rabs ((b.1 - a.1) * (c.2 - a.2) - (b.2 - a.2) * (c.1 - a.1)) / 2

/-- Inclusive running count of `true` entries (`np.cumsum`). -/
def cumsums : List Bool → ℕ → List ℕ
  | [], _ => []
  | b :: rest, acc =>
      let acc2 := acc + (if b then 1 else 0)
      acc2 :: cumsums rest acc2

/-- Boolean-mask selection `chain[accepted]`. -/
def maskFilter (l : List (ℚ × ℚ)) (m : List Bool) : List (ℚ × ℚ) :=
  (l.zip m).filterMap (fun q => if q.2 then some q.1 else none)

/-- Positions of the `true` entries (`np.argwhere(accepted).flatten()`). -/
def trueIdx (m : List Bool) : List ℕ :=
  m.enum.filterMap (fun q => if q.2 then some q.1 else none)

/-- Triangle area of each point of `chain[:-1]` against its two nearest
accepted neighbours (lines 1781-1787): `idx1 = cumsum(accepted[:-1])`,
`idx0 = idx1 - 1`, `a = triangle_areas(ca[idx0], ca[idx1], chain[:-1])`. -/
def chainAreas (chain : List (ℚ × ℚ)) (accepted : List Bool) : List ℚ :=
  let ca := maskFilter chain accepted
  let idx1 := cumsums accepted.dropLast 0
  (chain.dropLast.zip idx1).map (fun q =>
    triangle_areas (ca.getD (q.2 - 1) (0, 0)) (ca.getD q.2 (0, 0)) q.1)

/-- One iteration of the simplification loop (lines 1780-1794): find the
point of largest deviation; stop when that deviation drops below 4,
otherwise accept the index midpoint of its accepted span. -/
def simplifyStep (chain : List (ℚ × ℚ)) (accepted : List Bool) :
    Option (List Bool) :=
  match argmaxQ (chainAreas chain accepted) with
  | none => none
  | some ma =>
      if ma.2 < 4 then none
      else
        let idx1 := cumsums accepted.dropLast 0
        let k := idx1.getD ma.1 0
        let aidx := trueIdx accepted
        let idxNew := (aidx.getD (k - 1) 0 + aidx.getD k 0) / 2
        some (accepted.set idxNew true)

/-- Fuelled unfolding of the `while True` loop; each productive iteration
accepts a strictly interior, previously excluded index, so the number of
iterations is below the chain length, which is the fuel used. -/
def simplifyLoop (chain : List (ℚ × ℚ)) : ℕ → List Bool → List Bool
  | 0, accepted => accepted
  | fuel + 1, accepted =>
      match simplifyStep chain accepted with
      | none => accepted
      | some acc2 => simplifyLoop chain fuel acc2

/-- Seed mask of the simplifier: first point, index midpoint, last point
(lines 1776-1779). -/
def initAccepted (n : ℕ) : List Bool :=
  (((List.replicate n false).set 0 true).set (n - 1) true).set (n / 2) true

/-- The chain simplifier of `make_control_points` (lines 1764-1795): the
closed chain (raw outline plus the closing duplicate) is simplified only
when its stored length exceeds 10. -/
def simplify_chain (chain : List (ℚ × ℚ)) : List (ℚ × ℚ) :=
  if 10 < chain.length then
    maskFilter chain (simplifyLoop chain chain.length (initAccepted chain.length))
  else chain

/-- Session used by several concrete counterexamples: one 1-by-1 plane
holding object 1. -/
def exSessionC1 : Session :=
  { shape := (1, 1)
    labels := [[[1]]]
    to_keep := [true, true]
    artists := []
    undo_stack := []
    last_ijv := [(0, 0, 1)]
    last_artist_save := []
    mode := Mode.normal
    allow_overlap := false
    active_artist := none
    split_artist := none
    delete_mode_artist := none
    delete_mode_rect_artist := none
    delete_mode_start := none
    delete_mode_filter := none
    pressed_keys := [] }

/-- Integer stand-in for the radius-20 thirteen-point ring of `new_object`
around a click at `(30, 30)` (the source ring is trigonometric). -/
def exRing : List (ℚ × ℚ) :=
  [(50, 30), (48, 40), (40, 48), (30, 50), (20, 48), (12, 40), (10, 30),
   (12, 20), (20, 12), (30, 10), (40, 12), (48, 20), (50, 30)]

/-- Session of the C7 witness: a freehand chain is being drawn. -/
def exSessionC7 : Session :=
  { exSessionC1 with
      mode := Mode.freehandDraw
      active_artist := some [(1, 1), (2, 2)] }

/-- Plane pair whose concatenated blocks are not globally row-major
sorted: plane 1 holds object 1 at `(1,1)`, plane 2 holds object 2 at
`(0,0)`. -/
def p1ex : Plane := [[0, 0], [0, 1]]

/-- Second plane of the C8 counterexample. -/
def p2ex : Plane := [[2, 0], [0, 0]]

/-- Construction-time session of the C8 counterexample. -/
def exSessionC8 : Session :=
  { shape := (2, 2)
    labels := [p1ex, p2ex]
    to_keep := [true, true, true]
    artists := []
    undo_stack := []
    last_ijv := [(1, 1, 1), (0, 0, 2)]
    last_artist_save := []
    mode := Mode.normal
    allow_overlap := false
    active_artist := none
    split_artist := none
    delete_mode_artist := none
    delete_mode_rect_artist := none
    delete_mode_start := none
    delete_mode_filter := none
    pressed_keys := [] }

/-- Closed outline of a 1-by-6 pixel bar: 10 raw boundary points plus the
closing duplicate, all collinear. -/
def c10bar : List (ℚ × ℚ) :=
  [(0, 0), (0, 1), (0, 2), (0, 3), (0, 4), (0, 5), (0, 4), (0, 3), (0, 2),
   (0, 1), (0, 0)]

/-- Four-point (three distinct) triangle artist of object 1. -/
def exArtistC6 : Artist :=
  ⟨[(10, 10), (20, 10), (15, 18), (10, 10)], 1, false, true⟩

/-- Session holding the triangle artist. -/
def exSessionC6 : Session := { exSessionC1 with artists := [exArtistC6] }

/-- Click directly on the triangle's second control point. -/
def exEventC6 : Event := ⟨20, 10, 20, 10, true⟩

/-- Octagonal chain of object 1 used by the C3 scenarios: dragged point
`(30,30)` at index 0, neighbours `(4,20)` and `(30,2)`; among its
non-adjacent edges are the horizontal edge `(10,6)-(0,6)` and the diagonal
edge `(0,0)-(10,10)`. -/
def exArtistC3 : Artist :=
  ⟨[(30, 30), (30, 2), (10, 6), (0, 6), (0, 0), (10, 10), (20, 30), (4, 20),
    (30, 30)], 1, false, true⟩

/-- Session holding the octagon, overlap disabled. -/
def exSessionC3 : Session :=
  { exSessionC1 with shape := (50, 50), artists := [exArtistC3] }

/-- Drag destination `(5,5)`, exactly on the diagonal edge. -/
def exEventC3 : Event := ⟨5, 5, 5, 5, true⟩

/-- Drag destination `(5,6)`, touching the horizontal edge endpoint. -/
def exEventC3b : Event := ⟨5, 6, 5, 6, true⟩

/-- Two single-pixel objects side by side, each with one open artist. -/
def exSessionC5 : Session :=
  { exSessionC1 with
      shape := (1, 2)
      labels := [[[1, 2]]]
      to_keep := [true, true, true]
      last_ijv := [(0, 0, 1), (0, 1, 2)]
      artists := [⟨[], 1, false, true⟩, ⟨[], 2, false, true⟩] }

theorem tK_inj {a b : T} (h : tK a = tK b) : a = b := by
  cases a with
  | mk ai ar =>
    cases b with
    | mk bi br =>
      cases ar with
      | mk aj av =>
        cases br with
        | mk bj bv =>
          simpa [tK, Prod.ext_iff] using h

theorem tKey_inj {a b : Tagged} (h : tKey a = tKey b) : a = b := by
  cases a with
  | mk at1 at2 =>
    cases b with
    | mk bt1 bt2 =>
      have h2 : (tK at1, at2) = (tK bt1, bt2) := by
        simpa [tKey] using h
      have h3 := Prod.mk.injEq .. ▸ h2
      obtain ⟨hk, ht⟩ := Prod.mk.injEq .. ▸ h2
      exact Prod.ext (tK_inj hk) ht

/-- Unfolding of the strict key order: either the bare triples compare
strictly, or they are equal and the epoch tags compare strictly. -/
theorem sLt_iff {x y : Tagged} :
    sLt x y ↔ tK x.1 < tK y.1 ∨ (x.1 = y.1 ∧ x.2 < y.2) := by
  unfold sLt tKey
  rw [Prod.Lex.lt_iff]
  constructor
  · rintro (h | ⟨h, h2⟩)
    · exact Or.inl h
    · exact Or.inr ⟨tK_inj h, h2⟩
  · rintro (h | ⟨h, h2⟩)
    · exact Or.inl h
    · exact Or.inr ⟨by rw [h], h2⟩

theorem sLt_of_rLe_ne {x y : Tagged} (h : rLe x y) (hne : x ≠ y) : sLt x y := by
  rcases lt_or_eq_of_le h with h2 | h2
  · exact h2
  · exact absurd (tKey_inj h2) hne

theorem sortT_perm (l : List Tagged) : List.Perm (sortT l) l :=
  List.perm_insertionSort rLe l

theorem sortT_sorted (l : List Tagged) : List.Sorted rLe (sortT l) :=
  List.sorted_insertionSort rLe l

theorem sortT_sorted_strict (l : List Tagged) (h : l.Nodup) :
    List.Sorted sLt (sortT l) := by
  have hnd : (sortT l).Nodup := ((sortT_perm l).nodup_iff).mpr h
  have hs := sortT_sorted l
  have hne : List.Pairwise (fun a b => a ≠ b) (sortT l) := hnd
  unfold List.Sorted at hs ⊢
  exact (List.Pairwise.and hs hne).imp (fun h2 => sLt_of_rLe_ne h2.1 h2.2)

theorem noTriple_tail {p : Tagged → Tagged → Bool} {x : Tagged} {xs : List Tagged}
    (h : NoTriple p (x :: xs)) : NoTriple p xs := by
  match xs with
  | [] => trivial
  | [y] => trivial
  | y :: z :: rest => exact h.2

theorem removeMarked_eq_cancelScan (p : Tagged → Tagged → Bool) :
    ∀ xs : List Tagged, NoTriple p xs → removeMarked p xs = cancelScan p xs := by
  have key : ∀ (n : ℕ) (xs : List Tagged), xs.length ≤ n → NoTriple p xs →
      removeMarked p xs = cancelScan p xs := by
    intro n
    induction n with
    | zero =>
      intro xs hlen _
      have : xs = [] := List.length_eq_zero.mp (Nat.le_zero.mp hlen)
      subst this; rfl
    | succ n ih =>
      intro xs hlen ht
      match xs with
      | [] => rfl
      | [x] => rfl
      | x :: y :: rest =>
        by_cases hp : p x y = true
        · have hrm : removeMarked p (x :: y :: rest) =
              removeMarkedC p true (y :: rest) := by
            simp [removeMarked, removeMarkedC, hp]
          have hcs : cancelScan p (x :: y :: rest) = cancelScan p rest := by
            simp [cancelScan, hp]
          rw [hrm, hcs]
          match rest with
          | [] => simp [removeMarkedC, cancelScan]
          | z :: rest2 =>
            have hyz : p y z = false := ht.1 hp
            have h2 : removeMarkedC p true (y :: z :: rest2) =
                removeMarkedC p (p y z) (z :: rest2) := by
              simp [removeMarkedC]
            rw [h2, hyz]
            have hlen2 : (z :: rest2).length ≤ n := by
              simp at hlen ⊢; omega
            exact ih (z :: rest2) hlen2 (noTriple_tail (noTriple_tail ht))
        · have hp2 : p x y = false := by simpa using hp
          have hrm : removeMarked p (x :: y :: rest) =
              x :: removeMarkedC p false (y :: rest) := by
            simp [removeMarked, removeMarkedC, hp2]
          have hcs : cancelScan p (x :: y :: rest) =
              x :: cancelScan p (y :: rest) := by
            simp [cancelScan, hp2]
          rw [hrm, hcs]
          have hlen2 : (y :: rest).length ≤ n := by
            simp at hlen ⊢; omega
          have h3 := ih (y :: rest) hlen2 (noTriple_tail ht)
          unfold removeMarked at h3
          rw [h3]
  intro xs ht
  exact key xs.length xs le_rfl ht

theorem sLt_tag {x y : Tagged} (h : sLt x y) (ht : x.1 = y.1) : x.2 < y.2 := by
  rcases sLt_iff.mp h with h2 | h2
  · rw [ht] at h2; exact absurd h2 (lt_irrefl _)
  · exact h2.2

theorem sLt_chain_trip {x y z : Tagged} (hxy : sLt x y) (hyz : sLt y z)
    (h : x.1 = z.1) : y.1 = x.1 ∧ x.2 < y.2 ∧ y.2 < z.2 := by
  rcases sLt_iff.mp hxy with h2 | h2
  · rcases sLt_iff.mp hyz with h3 | h3
    · have := lt_trans h2 h3
      rw [h] at this
      exact absurd this (lt_irrefl _)
    · rw [h3.1, ← h] at h2
      exact absurd h2 (lt_irrefl _)
  · rcases sLt_iff.mp hyz with h3 | h3
    · rw [← h2.1, h] at h3
      exact absurd h3 (lt_irrefl _)
    · exact ⟨h2.1.symm, h2.2, h3.2⟩

theorem cancelScan_cons2 (p : Tagged → Tagged → Bool) (x y : Tagged)
    (rest : List Tagged) :
    cancelScan p (x :: y :: rest) =
      if p x y then cancelScan p rest else x :: cancelScan p (y :: rest) := rfl

theorem noTriple_pairMatch (xs : List Tagged) : NoTriple pairMatch xs := by
  induction xs with
  | nil => trivial
  | cons x rest ih =>
    cases rest with
    | nil => trivial
    | cons y rest2 =>
      cases rest2 with
      | nil => trivial
      | cons z rest3 =>
        refine ⟨?_, ih⟩
        intro hxy
        simp only [pairMatch, Bool.and_eq_true, decide_eq_true_eq] at hxy
        simp only [pairMatch, Bool.and_eq_false_iff, decide_eq_false_iff_not]
        left; right
        omega

theorem noTriple_pairMatchU (xs : List Tagged) (h01 : Tags01 xs)
    (hs : List.Sorted sLt xs) : NoTriple pairMatchU xs := by
  induction xs with
  | nil => trivial
  | cons x rest ih =>
    have hx01 : ∀ w ∈ rest, w.2 = 0 ∨ w.2 = 1 := fun w hw =>
      h01 w (List.mem_cons_of_mem x hw)
    have hs2 := (List.sorted_cons.mp hs).2
    have hhead := (List.sorted_cons.mp hs).1
    cases rest with
    | nil => trivial
    | cons y rest2 =>
      cases rest2 with
      | nil => trivial
      | cons z rest3 =>
        refine ⟨?_, ih hx01 hs2⟩
        intro hxy
        simp only [pairMatchU, decide_eq_true_eq] at hxy
        simp only [pairMatchU, decide_eq_false_iff_not]
        intro hyz
        have hsxy : sLt x y := hhead y (by simp)
        have hsyz : sLt y z := (List.sorted_cons.mp hs2).1 z (by simp)
        have h1 : x.2 < y.2 := sLt_tag hsxy hxy
        have h2 : y.2 < z.2 := sLt_tag hsyz hyz
        have h3 := h01 z (by simp)
        omega

theorem oppositeIn_iff {l : List Tagged} {x : Tagged} :
    oppositeIn l x = true ↔ ∃ y ∈ l, y.1 = x.1 ∧ y.2 ≠ x.2 := by
  simp [oppositeIn]

theorem oppositeIn_mono {l2 l : List Tagged} {x : Tagged}
    (hsub : ∀ y ∈ l2, y ∈ l) (h : oppositeIn l2 x = true) : oppositeIn l x = true := by
  rcases oppositeIn_iff.mp h with ⟨y, hy, hprop⟩
  exact oppositeIn_iff.mpr ⟨y, hsub y hy, hprop⟩

/-- On a strictly sorted tagged list with epoch tags in `{0,1}`, the
marking scan keeps exactly the rows whose `(i,j,v)` appears with only one
epoch tag: matched `(old, new)` pairs cancel, singletons survive. -/
theorem cancelScanU_eq_filter :
    ∀ xs : List Tagged, Tags01 xs → List.Sorted sLt xs →
      cancelScan pairMatchU xs = xs.filter (fun x => ! oppositeIn xs x) := by
  have key : ∀ (n : ℕ) (xs : List Tagged), xs.length ≤ n → Tags01 xs →
      List.Sorted sLt xs →
      cancelScan pairMatchU xs = xs.filter (fun x => ! oppositeIn xs x) := by
    intro n
    induction n with
    | zero =>
      intro xs hlen _ _
      have : xs = [] := List.length_eq_zero.mp (Nat.le_zero.mp hlen)
      subst this; rfl
    | succ n ih =>
      intro xs hlen h01 hs
      match xs with
      | [] => rfl
      | [x] =>
        have hx : oppositeIn [x] x = false := by
          simp [oppositeIn]
        simp [cancelScan, List.filter, hx]
      | x :: y :: rest =>
        have hsxy : sLt x y := (List.sorted_cons.mp hs).1 y (by simp)
        have hs2 : List.Sorted sLt (y :: rest) := (List.sorted_cons.mp hs).2
        have h012 : Tags01 (y :: rest) := fun w hw => h01 w (List.mem_cons_of_mem x hw)
        by_cases hxy : x.1 = y.1
        · -- adjacent cancelling pair: both dropped, nothing in `rest`
          -- shares their triple
          have htag : x.2 < y.2 := sLt_tag hsxy hxy
          have hx2 : x.2 = 0 := by
            have := h01 x (by simp)
            have := h01 y (by simp)
            omega
          have hy2 : y.2 = 1 := by
            have := h01 x (by simp)
            have := h01 y (by simp)
            omega
          have hrest_ne : ∀ z ∈ rest, z.1 ≠ x.1 := by
            intro z hz hzx
            have hsyz : sLt y z := (List.sorted_cons.mp hs2).1 z hz
            have := sLt_chain_trip hsxy hsyz hzx.symm
            have hz01 := h01 z (by simp [hz])
            omega
          have hpm : pairMatchU x y = true := by
            simp [pairMatchU, hxy]
          have hlhs : cancelScan pairMatchU (x :: y :: rest) =
              cancelScan pairMatchU rest := by
            rw [cancelScan_cons2, if_pos hpm]
          have hx_drop : oppositeIn (x :: y :: rest) x = true := by
            refine oppositeIn_iff.mpr ⟨y, by simp, hxy.symm, ?_⟩
            omega
          have hy_drop : oppositeIn (x :: y :: rest) y = true := by
            refine oppositeIn_iff.mpr ⟨x, by simp, hxy, ?_⟩
            omega
          have hfilter_congr : ∀ z ∈ rest,
              oppositeIn (x :: y :: rest) z = oppositeIn rest z := by
            intro z hz
            by_cases hop : oppositeIn rest z = true
            · rw [hop]
              exact oppositeIn_mono (fun w hw => by simp [hw]) hop
            · have hop2 := hop
              rw [Bool.not_eq_true] at hop2
              rw [hop2]
              rw [Bool.eq_false_iff]
              intro hcon
              rcases oppositeIn_iff.mp hcon with ⟨w, hw, hw1, hw2⟩
              have hznx := hrest_ne z hz
              rcases List.mem_cons.mp hw with rfl | hw3
              · exact hznx (hw1 ▸ rfl)
              rcases List.mem_cons.mp hw3 with rfl | hw4
              · exact hznx (hxy ▸ hw1 ▸ rfl)
              · exact hop (oppositeIn_iff.mpr ⟨w, hw4, hw1, hw2⟩)
          have hrest01 : Tags01 rest := fun w hw => h01 w (by simp [hw])
          have hrests : List.Sorted sLt rest := (List.sorted_cons.mp hs2).2
          have hlen2 : rest.length ≤ n := by simp at hlen; omega
          rw [hlhs, ih rest hlen2 hrest01 hrests]
          have hxf : (!oppositeIn (x :: y :: rest) x) = false := by
            rw [hx_drop]; rfl
          have hyf : (!oppositeIn (x :: y :: rest) y) = false := by
            rw [hy_drop]; rfl
          rw [List.filter_cons, List.filter_cons, hxf, hyf,
            if_neg Bool.false_ne_true, if_neg Bool.false_ne_true]
          symm
          rw [List.filter_congr]
          intro z hz
          rw [hfilter_congr z hz]
        · -- head is a singleton for its triple: kept, recurse on the tail
          have htail_ne : ∀ z ∈ y :: rest, z.1 ≠ x.1 := by
            intro z hz hzx
            rcases List.mem_cons.mp hz with rfl | hz2
            · exact hxy hzx.symm
            · have hsyz : sLt y z := (List.sorted_cons.mp hs2).1 z hz2
              have := sLt_chain_trip hsxy hsyz hzx.symm
              exact hxy this.1.symm
          have hpm : pairMatchU x y = false := by
            simp [pairMatchU, hxy]
          have hlhs : cancelScan pairMatchU (x :: y :: rest) =
              x :: cancelScan pairMatchU (y :: rest) := by
            rw [cancelScan_cons2, hpm, if_neg Bool.false_ne_true]
          have hx_keep : oppositeIn (x :: y :: rest) x = false := by
            rw [Bool.eq_false_iff]
            intro hcon
            rcases oppositeIn_iff.mp hcon with ⟨w, hw, hw1, hw2⟩
            rcases List.mem_cons.mp hw with rfl | hw3
            · exact hw2 rfl
            · exact htail_ne w hw3 hw1
          have hfilter_congr : ∀ z ∈ y :: rest,
              oppositeIn (x :: y :: rest) z = oppositeIn (y :: rest) z := by
            intro z hz
            by_cases hop : oppositeIn (y :: rest) z = true
            · rw [hop]
              exact oppositeIn_mono (fun w hw => List.mem_cons_of_mem x hw) hop
            · have hop2 := hop
              rw [Bool.not_eq_true] at hop2
              rw [hop2]
              rw [Bool.eq_false_iff]
              intro hcon
              rcases oppositeIn_iff.mp hcon with ⟨w, hw, hw1, hw2⟩
              rcases List.mem_cons.mp hw with rfl | hw3
              · exact htail_ne z hz (hw1 ▸ rfl)
              · exact hop (oppositeIn_iff.mpr ⟨w, hw3, hw1, hw2⟩)
          have hlen2 : (y :: rest).length ≤ n := by simp at hlen ⊢; omega
          rw [hlhs, ih (y :: rest) hlen2 h012 hs2]
          have hxt : (!oppositeIn (x :: y :: rest) x) = true := by
            rw [hx_keep]; rfl
          conv_rhs => rw [List.filter_cons]
          rw [hxt, if_pos rfl]
          congr 1
          symm
          rw [List.filter_congr]
          intro z hz
          rw [hfilter_congr z hz]
  intro xs h01 hs
  exact key xs.length xs le_rfl h01 hs

/-- On sorted `{0,1}`-tagged input the tag-checking pair condition of
`record_undo` agrees with the tag-free condition of `undo`. -/
theorem cancelScan_pm_eq_pmU :
    ∀ xs : List Tagged, Tags01 xs → List.Sorted sLt xs →
      cancelScan pairMatch xs = cancelScan pairMatchU xs := by
  have key : ∀ (n : ℕ) (xs : List Tagged), xs.length ≤ n → Tags01 xs →
      List.Sorted sLt xs →
      cancelScan pairMatch xs = cancelScan pairMatchU xs := by
    intro n
    induction n with
    | zero =>
      intro xs hlen _ _
      have : xs = [] := List.length_eq_zero.mp (Nat.le_zero.mp hlen)
      subst this; rfl
    | succ n ih =>
      intro xs hlen h01 hs
      match xs with
      | [] => rfl
      | [x] => rfl
      | x :: y :: rest =>
        have hsxy : sLt x y := (List.sorted_cons.mp hs).1 y (by simp)
        have hs2 : List.Sorted sLt (y :: rest) := (List.sorted_cons.mp hs).2
        have h012 : Tags01 (y :: rest) := fun w hw => h01 w (List.mem_cons_of_mem x hw)
        by_cases hxy : x.1 = y.1
        · have htag : x.2 < y.2 := sLt_tag hsxy hxy
          have hx2 : x.2 = 0 := by
            have := h01 x (by simp)
            have := h01 y (by simp)
            omega
          have hy2 : y.2 = 1 := by
            have := h01 x (by simp)
            have := h01 y (by simp)
            omega
          have hpm : pairMatch x y = true := by
            simp [pairMatch, hxy, hx2, hy2]
          have hpmU : pairMatchU x y = true := by
            simp [pairMatchU, hxy]
          have hrest01 : Tags01 rest := fun w hw => h01 w (by simp [hw])
          have hrests : List.Sorted sLt rest := (List.sorted_cons.mp hs2).2
          have hlen2 : rest.length ≤ n := by simp at hlen; omega
          rw [cancelScan_cons2, cancelScan_cons2, if_pos hpm, if_pos hpmU]
          exact ih rest hlen2 hrest01 hrests
        · have hpm : pairMatch x y = false := by
            simp only [pairMatch, Bool.and_eq_false_iff,
              decide_eq_false_iff_not]
            left; left; exact hxy
          have hpmU : pairMatchU x y = false := by
            simp [pairMatchU, hxy]
          have hlen2 : (y :: rest).length ≤ n := by simp at hlen ⊢; omega
          rw [cancelScan_cons2, cancelScan_cons2, hpm, hpmU,
            if_neg Bool.false_ne_true, if_neg Bool.false_ne_true]
          congr 1
          exact ih (y :: rest) hlen2 h012 hs2
  intro xs h01 hs
  exact key xs.length xs le_rfl h01 hs

theorem mem_tag0 {c : List T} {t : T} {k : ℕ} :
    ((t, k) : Tagged) ∈ tag0 c ↔ k = 0 ∧ t ∈ c := by
  simp only [tag0, List.mem_map, Prod.mk.injEq]
  constructor
  · rintro ⟨u, hu, rfl, rfl⟩; exact ⟨rfl, hu⟩
  · rintro ⟨rfl, hu⟩; exact ⟨t, hu, rfl, rfl⟩

theorem mem_tag1 {c : List T} {t : T} {k : ℕ} :
    ((t, k) : Tagged) ∈ tag1 c ↔ k = 1 ∧ t ∈ c := by
  simp only [tag1, List.mem_map, Prod.mk.injEq]
  constructor
  · rintro ⟨u, hu, rfl, rfl⟩; exact ⟨rfl, hu⟩
  · rintro ⟨rfl, hu⟩; exact ⟨t, hu, rfl, rfl⟩

theorem tags01_perm {l1 l2 : List Tagged} (h : List.Perm l1 l2)
    (h01 : Tags01 l1) : Tags01 l2 :=
  fun x hx => h01 x (h.mem_iff.mpr hx)

theorem tags01_append {l1 l2 : List Tagged} (h1 : Tags01 l1) (h2 : Tags01 l2) :
    Tags01 (l1 ++ l2) := by
  intro x hx
  rcases List.mem_append.mp hx with h | h
  · exact h1 x h
  · exact h2 x h

theorem tags01_tag0 (c : List T) : Tags01 (tag0 c) := by
  rintro ⟨t, k⟩ hx
  exact Or.inl (mem_tag0.mp hx).1

theorem tags01_tag1 (c : List T) : Tags01 (tag1 c) := by
  rintro ⟨t, k⟩ hx
  exact Or.inr (mem_tag1.mp hx).1

theorem nodup_tag0 {c : List T} (h : c.Nodup) : (tag0 c).Nodup :=
  h.map (fun a b hab => (Prod.mk.injEq .. ▸ hab).1)

theorem nodup_tag1 {c : List T} (h : c.Nodup) : (tag1 c).Nodup :=
  h.map (fun a b hab => (Prod.mk.injEq .. ▸ hab).1)

theorem nodup_tag01_append {cur last : List T} (hc : cur.Nodup)
    (hl : last.Nodup) : (tag0 cur ++ tag1 last).Nodup := by
  rw [List.nodup_append]
  refine ⟨nodup_tag0 hc, nodup_tag1 hl, ?_⟩
  rintro ⟨t, k⟩ hx hy
  have h0 := (mem_tag0.mp hx).1
  have h1 := (mem_tag1.mp hy).1
  omega

theorem recordDiff_perm_canon (cur last : List T) (hc : cur.Nodup)
    (hl : last.Nodup) (hne : cur ≠ []) :
    List.Perm (recordDiff cur last) (diffCanon cur last) := by
  have hin01 : Tags01 (tag0 cur ++ tag1 last) :=
    tags01_append (tags01_tag0 cur) (tags01_tag1 last)
  have hinnd : (tag0 cur ++ tag1 last).Nodup := nodup_tag01_append hc hl
  set S := sortT (tag0 cur ++ tag1 last) with hS
  have hSperm : List.Perm S (tag0 cur ++ tag1 last) := sortT_perm _
  have hS01 : Tags01 S := tags01_perm hSperm.symm hin01
  have hSnd : S.Nodup := hSperm.nodup_iff.mpr hinnd
  have hSsorted : List.Sorted sLt S := sortT_sorted_strict _ hinnd
  have h1 : recordDiff cur last = S.filter (fun x => ! oppositeIn S x) := by
    rw [recordDiff, if_neg hne, ← hS,
      removeMarked_eq_cancelScan pairMatch S (noTriple_pairMatch S),
      cancelScan_pm_eq_pmU S hS01 hSsorted,
      cancelScanU_eq_filter S hS01 hSsorted]
  -- membership characterisation of the survivor test
  have hop0 : ∀ t : T, t ∈ cur →
      ((fun x => ! oppositeIn S x) ((t, 0) : Tagged) = decide (¬ t ∈ last)) := by
    intro t _
    by_cases hmem : t ∈ last
    · have : oppositeIn S ((t, 0) : Tagged) = true := by
        refine oppositeIn_iff.mpr ⟨(t, 1), ?_, rfl, by omega⟩
        exact hSperm.mem_iff.mpr (List.mem_append.mpr (Or.inr (mem_tag1.mpr ⟨rfl, hmem⟩)))
      simp [this, hmem]
    · have : oppositeIn S ((t, 0) : Tagged) = false := by
        rw [Bool.eq_false_iff]
        intro hcon
        rcases oppositeIn_iff.mp hcon with ⟨⟨u, k⟩, hy, hy1, hy2⟩
        simp only at hy1 hy2
        subst hy1
        rcases List.mem_append.mp (hSperm.mem_iff.mp hy) with h | h
        · exact hy2 (mem_tag0.mp h).1
        · exact hmem (mem_tag1.mp h).2
      simp [this, hmem]
  have hop1 : ∀ t : T, t ∈ last →
      ((fun x => ! oppositeIn S x) ((t, 1) : Tagged) = decide (¬ t ∈ cur)) := by
    intro t _
    by_cases hmem : t ∈ cur
    · have : oppositeIn S ((t, 1) : Tagged) = true := by
        refine oppositeIn_iff.mpr ⟨(t, 0), ?_, rfl, by omega⟩
        exact hSperm.mem_iff.mpr (List.mem_append.mpr (Or.inl (mem_tag0.mpr ⟨rfl, hmem⟩)))
      simp [this, hmem]
    · have : oppositeIn S ((t, 1) : Tagged) = false := by
        rw [Bool.eq_false_iff]
        intro hcon
        rcases oppositeIn_iff.mp hcon with ⟨⟨u, k⟩, hy, hy1, hy2⟩
        simp only at hy1 hy2
        subst hy1
        rcases List.mem_append.mp (hSperm.mem_iff.mp hy) with h | h
        · exact hmem (mem_tag0.mp h).2
        · exact hy2 (mem_tag1.mp h).1
      simp [this, hmem]
  rw [h1]
  have h2 : List.Perm (S.filter (fun x => ! oppositeIn S x))
      ((tag0 cur ++ tag1 last).filter (fun x => ! oppositeIn S x)) :=
    hSperm.filter _
  refine h2.trans ?_
  rw [List.filter_append]
  unfold diffCanon
  refine List.Perm.append (List.Perm.of_eq ?_) (List.Perm.of_eq ?_)
  · unfold tag0
    rw [List.filter_map, List.filter_congr]
    rintro t ht
    exact hop0 t ht
  · unfold tag1
    rw [List.filter_map, List.filter_congr]
    rintro t ht
    exact hop1 t ht

theorem recordDiff_mem {cur last : List T} (hc : cur.Nodup) (hl : last.Nodup)
    {x : Tagged} (hx : x ∈ recordDiff cur last) :
    (x.2 = 0 ∧ x.1 ∈ cur ∧ ¬ x.1 ∈ last) ∨
      (x.2 = 1 ∧ x.1 ∈ last ∧ ¬ x.1 ∈ cur) := by
  by_cases hne : cur = []
  · rw [recordDiff, if_pos hne] at hx
    exact absurd hx (List.not_mem_nil x)
  · have hperm := recordDiff_perm_canon cur last hc hl hne
    have hx2 := hperm.mem_iff.mp hx
    rcases List.mem_append.mp hx2 with h | h
    · obtain ⟨t, k⟩ := x
      have := mem_tag0.mp h
      rcases this with ⟨rfl, hmem⟩
      have := List.mem_filter.mp hmem
      exact Or.inl ⟨rfl, this.1, by simpa using this.2⟩
    · obtain ⟨t, k⟩ := x
      have := mem_tag1.mp h
      rcases this with ⟨rfl, hmem⟩
      have := List.mem_filter.mp hmem
      exact Or.inr ⟨rfl, this.1, by simpa using this.2⟩

theorem recordDiff_length {cur last : List T} (hc : cur.Nodup)
    (hl : last.Nodup) (hne : cur ≠ []) :
    (recordDiff cur last).length =
      (cur.filter (fun t => decide (¬ t ∈ last))).length +
        (last.filter (fun t => decide (¬ t ∈ cur))).length := by
  rw [(recordDiff_perm_canon cur last hc hl hne).length_eq]
  simp [diffCanon, tag0, tag1]

theorem recordDiff_of_perm {cur last : List T} (hc : cur.Nodup)
    (hl : last.Nodup) (hperm : List.Perm cur last) :
    recordDiff cur last = [] := by
  by_cases hne : cur = []
  · rw [recordDiff, if_pos hne]
  · have h1 : cur.filter (fun t => decide (¬ t ∈ last)) = [] := by
      rw [List.filter_eq_nil_iff]
      intro t ht
      simp only [decide_eq_true_eq, Decidable.not_not]
      exact hperm.mem_iff.mp ht
    have h2 : last.filter (fun t => decide (¬ t ∈ cur)) = [] := by
      rw [List.filter_eq_nil_iff]
      intro t ht
      simp only [decide_eq_true_eq, Decidable.not_not]
      exact hperm.mem_iff.mpr ht
    have h3 : diffCanon cur last = [] := by rw [diffCanon, h1, h2]; rfl
    have h4 := recordDiff_perm_canon cur last hc hl hne
    rw [h3] at h4
    exact h4.eq_nil

theorem undoMerge_recordDiff (cur last curP : List T) (hc : cur.Nodup)
    (hl : last.Nodup) (hne : cur ≠ []) (hp : List.Perm curP cur) :
    List.Perm (undoMerge (recordDiff cur last) curP) last := by
  classical
  set A := cur.filter (fun t => decide (¬ t ∈ last)) with hA
  set B := last.filter (fun t => decide (¬ t ∈ cur)) with hB
  have memA : ∀ t : T, t ∈ A ↔ t ∈ cur ∧ ¬ t ∈ last := by
    intro t
    rw [hA, List.mem_filter]
    simp
  have memB : ∀ t : T, t ∈ B ↔ t ∈ last ∧ ¬ t ∈ cur := by
    intro t
    rw [hB, List.mem_filter]
    simp
  have hD := recordDiff_perm_canon cur last hc hl hne
  rw [diffCanon] at hD
  have hinput : List.Perm (recordDiff cur last ++ tag1 curP)
      ((tag0 A ++ tag1 B) ++ tag1 cur) := by
    refine List.Perm.append hD ?_
    unfold tag1
    exact hp.map _
  have hndfull : ((tag0 A ++ tag1 B) ++ tag1 cur).Nodup := by
    rw [List.append_assoc, List.nodup_append]
    refine ⟨nodup_tag0 (hc.filter _), ?_, ?_⟩
    · have heq : tag1 B ++ tag1 cur = tag1 (B ++ cur) := by
        unfold tag1
        rw [List.map_append]
      rw [heq]
      refine nodup_tag1 ?_
      rw [List.nodup_append]
      refine ⟨hl.filter _, hc, ?_⟩
      intro t htB htc
      exact ((memB t).mp htB).2 htc
    · rintro ⟨t, k⟩ hx hy
      have h0 := (mem_tag0.mp hx).1
      rcases List.mem_append.mp hy with h | h
      · have h1 := (mem_tag1.mp h).1
        omega
      · have h1 := (mem_tag1.mp h).1
        omega
  have hin01 : Tags01 ((tag0 A ++ tag1 B) ++ tag1 cur) :=
    tags01_append (tags01_append (tags01_tag0 _) (tags01_tag1 _)) (tags01_tag1 _)
  set S2 := sortT (recordDiff cur last ++ tag1 curP) with hS2
  have hS2perm : List.Perm S2 ((tag0 A ++ tag1 B) ++ tag1 cur) :=
    (sortT_perm _).trans hinput
  have hS201 : Tags01 S2 := tags01_perm hS2perm.symm hin01
  have hS2nd : S2.Nodup := hS2perm.nodup_iff.mpr hndfull
  have hS2sorted : List.Sorted sLt S2 := by
    rw [hS2]
    exact sortT_sorted_strict _ (hinput.nodup_iff.mpr hndfull)
  have hfilt : undoMerge (recordDiff cur last) curP =
      (S2.filter (fun x => ! oppositeIn S2 x)).map (fun x => x.1) := by
    rw [undoMerge, ← hS2,
      removeMarked_eq_cancelScan pairMatchU S2
        (noTriple_pairMatchU S2 hS201 hS2sorted),
      cancelScanU_eq_filter S2 hS201 hS2sorted]
  have hmem0 : ∀ t : T, ((t, 0) : Tagged) ∈ S2 ↔ t ∈ A := by
    intro t
    rw [hS2perm.mem_iff, List.mem_append, List.mem_append]
    constructor
    · rintro ((h | h) | h)
      · exact (mem_tag0.mp h).2
      · have := (mem_tag1.mp h).1; omega
      · have := (mem_tag1.mp h).1; omega
    · intro h
      exact Or.inl (Or.inl (mem_tag0.mpr ⟨rfl, h⟩))
  have hmem1 : ∀ t : T, ((t, 1) : Tagged) ∈ S2 ↔ t ∈ B ∨ t ∈ cur := by
    intro t
    rw [hS2perm.mem_iff, List.mem_append, List.mem_append]
    constructor
    · rintro ((h | h) | h)
      · have := (mem_tag0.mp h).1; omega
      · exact Or.inl (mem_tag1.mp h).2
      · exact Or.inr (mem_tag1.mp h).2
    · rintro (h | h)
      · exact Or.inl (Or.inr (mem_tag1.mpr ⟨rfl, h⟩))
      · exact Or.inr (mem_tag1.mpr ⟨rfl, h⟩)
  set R := S2.filter (fun x => ! oppositeIn S2 x) with hR
  have hRsub : ∀ x ∈ R, x ∈ S2 := fun x hx => (List.mem_filter.mp hx).1
  have hRtag1 : ∀ x ∈ R, x.2 = 1 := by
    rintro ⟨t, k⟩ hx
    have hxS := hRsub _ hx
    have hkeep := (List.mem_filter.mp hx).2
    rcases hS201 _ hxS with h0 | h1
    · exfalso
      simp only at h0
      subst h0
      have htA : t ∈ A := (hmem0 t).mp hxS
      have htcur : t ∈ cur := ((memA t).mp htA).1
      have hop : oppositeIn S2 ((t, 0) : Tagged) = true := by
        refine oppositeIn_iff.mpr ⟨(t, 1), (hmem1 t).mpr (Or.inr htcur), rfl, by omega⟩
      rw [hop] at hkeep
      exact Bool.false_ne_true hkeep
    · exact h1
  have hmapmem : ∀ t : T, t ∈ R.map (fun x => x.1) ↔ t ∈ last := by
    intro t
    rw [List.mem_map]
    constructor
    · rintro ⟨x, hxR, rfl⟩
      have hx1 : x.2 = 1 := hRtag1 x hxR
      have hxS : x ∈ S2 := hRsub x hxR
      have hkeep := (List.mem_filter.mp hxR).2
      have hxpair : x = ((x.1, 1) : Tagged) := by
        rw [← hx1]
      rw [hxpair] at hxS
      have hnotA : ¬ x.1 ∈ A := by
        intro hA2
        have hop : oppositeIn S2 x = true := by
          refine oppositeIn_iff.mpr ⟨(x.1, 0), (hmem0 x.1).mpr hA2, rfl, by omega⟩
        rw [hop] at hkeep
        exact Bool.false_ne_true hkeep
      rcases (hmem1 x.1).mp hxS with h | h
      · exact ((memB x.1).mp h).1
      · by_contra hnl
        exact hnotA ((memA x.1).mpr ⟨h, hnl⟩)
    · intro hlast
      refine ⟨(t, 1), ?_, rfl⟩
      rw [hR, List.mem_filter]
      constructor
      · by_cases hcur2 : t ∈ cur
        · exact (hmem1 t).mpr (Or.inr hcur2)
        · exact (hmem1 t).mpr (Or.inl ((memB t).mpr ⟨hlast, hcur2⟩))
      · rw [Bool.not_eq_eq_eq_not, Bool.not_true, Bool.eq_false_iff]
        intro hop
        rcases oppositeIn_iff.mp hop with ⟨y, hyS, hy1, hy2⟩
        rcases hS201 y hyS with h0 | h1
        · have hy0 : y = ((t, 0) : Tagged) := by
            obtain ⟨u, k⟩ := y
            simp only at hy1 h0
            rw [hy1, h0]
          rw [hy0] at hyS
          have htA := (hmem0 t).mp hyS
          exact ((memA t).mp htA).2 hlast
        · exact hy2 (by simp only [h1])
  have hRnd : R.Nodup := hS2nd.filter _
  have hmapnd : (R.map (fun x => x.1)).Nodup := by
    refine hRnd.map_on ?_
    intro x hx y hy hxy
    have hx1 : x.2 = 1 := hRtag1 x hx
    have hy1 : y.2 = 1 := hRtag1 y hy
    obtain ⟨xt, xk⟩ := x
    obtain ⟨yt, yk⟩ := y
    simp only at hx1 hy1 hxy
    rw [hx1, hy1, hxy]
  rw [hfilt]
  exact (List.perm_ext_iff_of_nodup hmapnd hl).mpr hmapmem

theorem popSnap_cons {e : UndoEngine} {d : List Tagged}
    {rest : List (List Tagged)} (h : e.stack = d :: rest) :
    popSnap e = ⟨undoMerge d e.last, rest⟩ := by
  unfold popSnap
  rw [h]

theorem popAll_pushAll (snaps : List (List T)) :
    ∀ e : UndoEngine, e.last.Nodup →
      (∀ c ∈ snaps, c ≠ [] ∧ c.Nodup) →
      List.Perm ((popSnap^[snaps.length] (snaps.foldl pushSnap e)).last)
          e.last ∧
        (popSnap^[snaps.length] (snaps.foldl pushSnap e)).stack = e.stack := by
  induction snaps with
  | nil =>
    intro e _ _
    exact ⟨List.Perm.refl _, rfl⟩
  | cons c rest ih =>
    intro e hnd hs
    have hc : c ≠ [] ∧ c.Nodup := hs c (by simp)
    have hrest : ∀ d ∈ rest, d ≠ [] ∧ d.Nodup := fun d hd => hs d (by simp [hd])
    have hfold : (c :: rest).foldl pushSnap e = rest.foldl pushSnap (pushSnap e c) := rfl
    have hlen : (c :: rest).length = rest.length + 1 := rfl
    rw [hfold, hlen, Function.iterate_succ_apply']
    obtain ⟨hY1, hY2⟩ := ih (pushSnap e c) hc.2 hrest
    set Y := popSnap^[rest.length] (rest.foldl pushSnap (pushSnap e c)) with hY
    have hYstack : Y.stack = recordDiff c e.last :: e.stack := hY2
    rw [popSnap_cons hYstack]
    refine ⟨?_, rfl⟩
    exact undoMerge_recordDiff c e.last Y.last hc.2 hnd hc.1 hY1

theorem calculate_ijv_eq_join (shape : ℕ × ℕ) (labels : List Plane) :
    calculate_ijv shape labels = (labels.map (planeIJV shape)).flatten := by
  have key : ∀ (ls : List Plane) (acc : List T),
      ls.foldl (fun a l => a ++ planeIJV shape l) acc =
        acc ++ (ls.map (planeIJV shape)).flatten := by
    intro ls
    induction ls with
    | nil => intro acc; simp
    | cons p rest ih =>
      intro acc
      simp only [List.foldl_cons, List.map_cons, List.flatten_cons]
      rw [ih, List.append_assoc]
  have := key labels []
  simpa [calculate_ijv] using this

theorem mem_planeIJV {shape : ℕ × ℕ} {p : Plane} {i j v : ℕ} :
    ((i, j, v) : T) ∈ planeIJV shape p ↔
      i < shape.1 ∧ j < shape.2 ∧ v ≠ 0 ∧ readPix p i j = v := by
  unfold planeIJV
  rw [List.mem_flatMap]
  constructor
  · rintro ⟨a, ha, hmem⟩
    rcases List.mem_filterMap.mp hmem with ⟨b, hb, hfb⟩
    by_cases hz : readPix p a b ≠ 0
    · rw [if_pos hz] at hfb
      obtain ⟨rfl, rfl, rfl⟩ : a = i ∧ b = j ∧ readPix p a b = v := by
        have := Option.some.injEq .. ▸ hfb
        have h2 : ((a, b, readPix p a b) : T) = (i, j, v) :=
          Option.some_injective _ hfb
        have h3 := Prod.mk.injEq .. ▸ h2
        obtain ⟨h4, h5⟩ := Prod.mk.injEq .. ▸ h2
        obtain ⟨h6, h7⟩ := Prod.mk.injEq .. ▸ h5
        exact ⟨h4, h6, h7⟩
      exact ⟨List.mem_range.mp ha, List.mem_range.mp hb, hz, rfl⟩
    · rw [if_neg hz] at hfb
      exact absurd hfb (Option.noConfusion)
  · rintro ⟨hi, hj, hv, hread⟩
    refine ⟨i, List.mem_range.mpr hi, ?_⟩
    refine List.mem_filterMap.mpr ⟨j, List.mem_range.mpr hj, ?_⟩
    rw [hread, if_pos hv]

theorem mem_calculate_ijv {shape : ℕ × ℕ} {labels : List Plane} {i j v : ℕ} :
    ((i, j, v) : T) ∈ calculate_ijv shape labels ↔
      i < shape.1 ∧ j < shape.2 ∧ v ≠ 0 ∧ ∃ p ∈ labels, readPix p i j = v := by
  rw [calculate_ijv_eq_join]
  rw [List.mem_flatten]
  constructor
  · rintro ⟨l, hl, hmem⟩
    rcases List.mem_map.mp hl with ⟨p, hp, rfl⟩
    obtain ⟨hi, hj, hv, hread⟩ := mem_planeIJV.mp hmem
    exact ⟨hi, hj, hv, p, hp, hread⟩
  · rintro ⟨hi, hj, hv, p, hp, hread⟩
    exact ⟨planeIJV shape p, List.mem_map.mpr ⟨p, hp, rfl⟩,
      mem_planeIJV.mpr ⟨hi, hj, hv, hread⟩⟩

/-- Each single plane contributes its triples strictly sorted by
`(row, col)`. -/
theorem planeIJV_sorted (shape : ℕ × ℕ) (p : Plane) :
    List.Pairwise rcLt (planeIJV shape p) := by
  unfold planeIJV
  rw [List.pairwise_flatMap]
  constructor
  · intro a _
    rw [List.pairwise_filterMap]
    refine (List.pairwise_lt_range shape.2).imp ?_
    intro b bp hlt x hx y hy
    by_cases hz : readPix p a b ≠ 0
    · rw [if_pos hz, Option.mem_def, Option.some.injEq] at hx
      by_cases hz2 : readPix p a bp ≠ 0
      · rw [if_pos hz2, Option.mem_def, Option.some.injEq] at hy
        rw [← hx, ← hy]
        exact Or.inr ⟨rfl, hlt⟩
      · rw [if_neg hz2] at hy
        exact absurd hy (by simp)
    · rw [if_neg hz] at hx
      exact absurd hx (by simp)
  · refine (List.pairwise_lt_range shape.1).imp ?_
    intro a ap hlt x hx y hy
    rcases List.mem_filterMap.mp hx with ⟨b, _, hfb⟩
    rcases List.mem_filterMap.mp hy with ⟨bp, _, hfbp⟩
    by_cases hz : readPix p a b ≠ 0
    · rw [if_pos hz, Option.some.injEq] at hfb
      by_cases hz2 : readPix p ap bp ≠ 0
      · rw [if_pos hz2, Option.some.injEq] at hfbp
        rw [← hfb, ← hfbp]
        exact Or.inl hlt
      · rw [if_neg hz2] at hfbp
        exact absurd hfbp (by simp)
    · rw [if_neg hz] at hfb
      exact absurd hfb (by simp)

/-- Each plane also contributes no duplicate triples. -/
theorem planeIJV_nodup (shape : ℕ × ℕ) (p : Plane) :
    (planeIJV shape p).Nodup := by
  have hpw := planeIJV_sorted shape p
  refine hpw.imp ?_
  intro a b hab
  rintro rfl
  rcases hab with h | ⟨_, h⟩
  · exact lt_irrefl _ h
  · exact lt_irrefl _ h

/-- Claim C1, counterexample: one committed `new_object` edit followed by
one `undo` leaves the keep/discard array extended (`[true, true, true]`),
not restored to its construction-time value (`[true, true]`), even though
the raster snapshot is restored; `undo` never writes `to_keep`. -/
theorem undo_keep_flags_counterexample :
    sessionInit [[[1]]] false = some exSessionC1 ∧
    (new_object exSessionC1 exRing).undo_stack.length = 1 ∧
    (undo (new_object exSessionC1 exRing)).last_ijv = exSessionC1.last_ijv ∧
    (undo (new_object exSessionC1 exRing)).to_keep ≠ exSessionC1.to_keep := by
  with_unfolding_all decide

/-- Claim C1 (amended): undoing as many times as there were committed
edits restores the raster snapshot (up to order of the flattened IJV set)
and empties the stack, provided every committed edit left a nonempty,
duplicate-free raster; the keep/discard array is not restored, since
`undo` leaves `to_keep` untouched. -/
theorem undo_restores_raster_not_flags (init : List T) (snaps : List (List T))
    (h0 : init.Nodup) (hs : ∀ c ∈ snaps, c ≠ [] ∧ c.Nodup) :
    (List.Perm
        ((popSnap^[snaps.length] (snaps.foldl pushSnap ⟨init, []⟩)).last) init ∧
      (popSnap^[snaps.length] (snaps.foldl pushSnap ⟨init, []⟩)).stack = []) ∧
    ∀ s : Session, (undo s).to_keep = s.to_keep := by
  refine ⟨popAll_pushAll snaps ⟨init, []⟩ h0 hs, ?_⟩
  intro s
  unfold undo
  split
  · rfl
  · rfl

/-- Claim C1, witness: a session starting from one pixel of object 1, one
committed edit repainting it as object 2, one undo. -/
theorem undo_restores_raster_not_flags_witness :
    ([((0 : ℕ), (0 : ℕ), (1 : ℕ))] : List T).Nodup ∧
    (∀ c ∈ [[((0 : ℕ), (0 : ℕ), (2 : ℕ))]], c ≠ [] ∧ c.Nodup) ∧
    (List.Perm
        ((popSnap^[1]
          ([[((0 : ℕ), (0 : ℕ), (2 : ℕ))]].foldl pushSnap
            ⟨[(0, 0, 1)], []⟩)).last) [(0, 0, 1)] ∧
      (popSnap^[1]
        ([[((0 : ℕ), (0 : ℕ), (2 : ℕ))]].foldl pushSnap
          ⟨[(0, 0, 1)], []⟩)).stack = []) ∧
    ∀ s : Session, (undo s).to_keep = s.to_keep :=
  ⟨by decide, by decide,
    (undo_restores_raster_not_flags [(0, 0, 1)] [[(0, 0, 2)]]
      (by decide) (by decide)).1,
    (undo_restores_raster_not_flags [(0, 0, 1)] [[(0, 0, 2)]]
      (by decide) (by decide)).2⟩

/-- Claim C2: the pushed sparse diff holds only epoch-tagged triples whose
`(row, col, objectId)` lies in exactly one of the two snapshots (tag 0 for
current-only, tag 1 for previous-only), its size is at most the number of
current-only triples plus previous-only triples (and exactly that when the
current raster is nonempty), and an edit that changes nothing produces an
empty diff. -/
theorem record_undo_diff_minimal (cur last : List T) (hc : cur.Nodup)
    (hl : last.Nodup) :
    (∀ x ∈ recordDiff cur last,
      (x.2 = 0 ∧ x.1 ∈ cur ∧ ¬ x.1 ∈ last) ∨
        (x.2 = 1 ∧ x.1 ∈ last ∧ ¬ x.1 ∈ cur)) ∧
    (recordDiff cur last).length ≤
      (cur.filter (fun t => decide (¬ t ∈ last))).length +
        (last.filter (fun t => decide (¬ t ∈ cur))).length ∧
    (cur ≠ [] →
      (recordDiff cur last).length =
        (cur.filter (fun t => decide (¬ t ∈ last))).length +
          (last.filter (fun t => decide (¬ t ∈ cur))).length) ∧
    (List.Perm cur last → recordDiff cur last = []) := by
  refine ⟨fun x hx => recordDiff_mem hc hl hx, ?_, ?_, ?_⟩
  · by_cases hne : cur = []
    · rw [recordDiff, if_pos hne]
      simp
    · rw [recordDiff_length hc hl hne]
  · intro hne
    exact recordDiff_length hc hl hne
  · intro hperm
    exact recordDiff_of_perm hc hl hperm

/-- Claim C2, witness: an edit that recolours pixel `(0,0)` from object 1
to object 2 and leaves `(1,1)` of object 3 untouched. -/
theorem record_undo_diff_minimal_witness :
    ([((0 : ℕ), (0 : ℕ), (2 : ℕ)), (1, 1, 3)] : List T).Nodup ∧
    ([((0 : ℕ), (0 : ℕ), (1 : ℕ)), (1, 1, 3)] : List T).Nodup ∧
    recordDiff [(0, 0, 2), (1, 1, 3)] [(0, 0, 1), (1, 1, 3)] =
      [((0, 0, 1), 1), ((0, 0, 2), 0)] ∧
    (∀ x ∈ recordDiff [(0, 0, 2), (1, 1, 3)] [(0, 0, 1), (1, 1, 3)],
      (x.2 = 0 ∧ x.1 ∈ [((0 : ℕ), (0 : ℕ), (2 : ℕ)), (1, 1, 3)] ∧
          ¬ x.1 ∈ [((0 : ℕ), (0 : ℕ), (1 : ℕ)), (1, 1, 3)]) ∨
        (x.2 = 1 ∧ x.1 ∈ [((0 : ℕ), (0 : ℕ), (1 : ℕ)), (1, 1, 3)] ∧
          ¬ x.1 ∈ [((0 : ℕ), (0 : ℕ), (2 : ℕ)), (1, 1, 3)])) :=
  ⟨by decide, by decide, by decide,
    (record_undo_diff_minimal [(0, 0, 2), (1, 1, 3)] [(0, 0, 1), (1, 1, 3)]
      (by decide) (by decide)).1⟩

/-- Claim C10: a `record_undo` taken while the current raster is empty
pushes an empty diff whatever the previous snapshot held, so the matching
`undo` reconstructs an empty IJV set instead of the pre-edit pixels. -/
theorem record_undo_empty_raster (last : List T) (h : last ≠ []) :
    recordDiff [] last = [] ∧
    (popSnap (pushSnap ⟨last, []⟩ [])).last = [] ∧
    (popSnap (pushSnap ⟨last, []⟩ [])).last ≠ last := by
  refine ⟨rfl, rfl, ?_⟩
  intro heq
  exact h heq.symm

/-- Claim C10, witness: previous snapshot holding one pixel. -/
theorem record_undo_empty_raster_witness :
    ([((0 : ℕ), (0 : ℕ), (1 : ℕ))] : List T) ≠ [] ∧
    recordDiff [] [((0 : ℕ), (0 : ℕ), (1 : ℕ))] = [] ∧
    (popSnap (pushSnap ⟨[((0 : ℕ), (0 : ℕ), (1 : ℕ))], []⟩ [])).last = [] ∧
    (popSnap (pushSnap ⟨[((0 : ℕ), (0 : ℕ), (1 : ℕ))], []⟩ [])).last ≠
      [((0 : ℕ), (0 : ℕ), (1 : ℕ))] :=
  ⟨by decide, (record_undo_empty_raster [(0, 0, 1)] (by decide)).1,
    (record_undo_empty_raster [(0, 0, 1)] (by decide)).2.1,
    (record_undo_empty_raster [(0, 0, 1)] (by decide)).2.2⟩

/-- Claim C7: Escape pressed in any of the freehand-draw, split-pick or
region-delete modes returns to normal mode, leaves the label planes, both
snapshots, the undo stack, the keep flags and the committed artists
untouched, and discards the mode's in-progress geometry. -/
theorem escape_cancels_pre_commit (s : Session)
    (h : s.mode = Mode.freehandDraw ∨ s.mode = Mode.splitPickFirst ∨
      s.mode = Mode.splitPickSecond ∨ s.mode = Mode.delete) :
    (on_key_down_escape s).mode = Mode.normal ∧
    (on_key_down_escape s).labels = s.labels ∧
    (on_key_down_escape s).last_ijv = s.last_ijv ∧
    (on_key_down_escape s).undo_stack = s.undo_stack ∧
    (on_key_down_escape s).to_keep = s.to_keep ∧
    (on_key_down_escape s).artists = s.artists ∧
    (s.mode = Mode.freehandDraw → (on_key_down_escape s).active_artist = none) ∧
    (s.mode = Mode.splitPickSecond → (on_key_down_escape s).split_artist = none) ∧
    (s.mode = Mode.delete →
      (on_key_down_escape s).delete_mode_artist = none ∧
        (on_key_down_escape s).delete_mode_rect_artist = none ∧
        (on_key_down_escape s).delete_mode_start = none) := by
  rcases h with h | h | h | h <;>
    simp [on_key_down_escape, h, exit_freehand_draw_mode, exit_split_mode,
      exit_delete_mode, remove_artists]

/-- Claim C7, witness: Escape during an in-progress freehand chain. -/
theorem escape_cancels_pre_commit_witness :
    exSessionC7.mode = Mode.freehandDraw ∧
    (on_key_down_escape exSessionC7).mode = Mode.normal ∧
    (on_key_down_escape exSessionC7).active_artist = none :=
  ⟨rfl,
    (escape_cancels_pre_commit exSessionC7 (Or.inl rfl)).1,
    (escape_cancels_pre_commit exSessionC7 (Or.inl rfl)).2.2.2.2.2.2.1 rfl⟩

/-- Claim C8 (amended): `calculate_ijv` is the concatenation, in plane
order, of per-plane blocks, and each block is strictly sorted in row-major
order; the overall sequence is therefore deterministic but globally
row-major sorted only when a single plane is present. -/
theorem calculate_ijv_per_plane_order (shape : ℕ × ℕ) (labels : List Plane) :
    calculate_ijv shape labels = (labels.map (planeIJV shape)).flatten ∧
    (∀ p : Plane, List.Pairwise rcLt (planeIJV shape p)) ∧
    (∀ p : Plane, List.Pairwise rcLt (calculate_ijv shape [p])) := by
  refine ⟨calculate_ijv_eq_join shape labels,
    fun p => planeIJV_sorted shape p, fun p => ?_⟩
  have h := calculate_ijv_eq_join shape [p]
  rw [h]
  simpa using planeIJV_sorted shape p

/-- Claim C8, counterexample: a reachable two-plane session whose
flattened IJV sequence `[(1,1,1), (0,0,2)]` is not sorted by row then
column across the plane set. -/
theorem calculate_ijv_order_counterexample :
    sessionInit [p1ex, p2ex] false = some exSessionC8 ∧
    calculate_ijv exSessionC8.shape exSessionC8.labels = [(1, 1, 1), (0, 0, 2)] ∧
    ¬ List.Pairwise rcLt (calculate_ijv exSessionC8.shape exSessionC8.labels) := by
  refine ⟨by decide, by decide, ?_⟩
  intro hpw
  have h := List.rel_of_pairwise_cons hpw (by decide : ((0, 0, 2) : T) ∈ [((0, 0, 2) : T)])
  rcases h with h | ⟨h, _⟩
  · exact absurd h (by decide)
  · exact absurd h (by decide)

/-- Claim C9 (amended): construction performs no input validation beyond
what indexing forces: any nonempty list of equal-dimension planes
constructs successfully (no `EmptyInput` check exists, so an all-zero
plane set also succeeds); an empty plane list fails (unchecked indexing
error, not a dedicated error value); a plane of differing dimensions makes
construction fail through the ill-formed boolean-mask indexing, not
through a dedicated `ShapeMismatch` check. -/
theorem session_init_spec :
    (∀ (labels : List Plane) (ov : Bool), labels ≠ [] →
      (∀ q ∈ labels, planeDims q = planeDims (labels.headD [])) →
      (sessionInit labels ov).isSome = true) ∧
    (∀ ov : Bool, sessionInit [] ov = none) ∧
    (∀ (labels : List Plane) (ov : Bool),
      (∃ q ∈ labels, planeDims q ≠ planeDims (labels.headD [])) →
      sessionInit labels ov = none) := by
  refine ⟨?_, fun _ => rfl, ?_⟩
  · intro labels ov hne hdims
    match labels with
    | [] => exact absurd rfl hne
    | p :: rest =>
      rw [sessionInit]
      have hall : (p :: rest).all (fun q => decide (planeDims q = planeDims p)) = true := by
        rw [List.all_eq_true]
        intro q hq
        exact decide_eq_true_eq.mpr (hdims q hq)
      rw [if_pos ?_]
      · rfl
      · simpa using hall
  · intro labels ov hbad
    match labels with
    | [] => rfl
    | p :: rest =>
      rw [sessionInit]
      rw [if_neg]
      intro hall
      rw [List.all_eq_true] at hall
      obtain ⟨q, hq, hne⟩ := hbad
      exact hne (decide_eq_true_eq.mp (hall q hq))

/-- Claim C9, witness: a 1-by-1 plane with one object constructs. -/
theorem session_init_spec_witness :
    ([[[1]]] : List Plane) ≠ [] ∧
    (∀ q ∈ ([[[1]]] : List Plane),
      planeDims q = planeDims (([[[1]]] : List Plane).headD [])) ∧
    (sessionInit [[[1]]] false).isSome = true ∧
    sessionInit ([] : List Plane) false = none :=
  ⟨by decide, by decide,
    session_init_spec.1 [[[1]]] false (by decide) (by decide),
    session_init_spec.2.1 false⟩

/-- Claim C9, counterexample: a session whose planes contain no nonzero
label constructs successfully with an empty flattened raster and a
keep array holding only the background slot, instead of failing with
`EmptyInput`. -/
theorem session_init_empty_input_counterexample :
    (sessionInit [[[0, 0], [0, 0]]] false).isSome = true ∧
    ((sessionInit [[[0, 0], [0, 0]]] false).map
      (fun s => s.last_ijv)).getD [(9, 9, 9)] = [] ∧
    ((sessionInit [[[0, 0], [0, 0]]] false).map
      (fun s => s.to_keep)).getD [] = [true] := by
  decide

theorem maskFilter_sublist (l : List (ℚ × ℚ)) :
    ∀ m : List Bool, (maskFilter l m).Sublist l := by
  induction l with
  | nil => intro m; simp [maskFilter]
  | cons x xs ih =>
    intro m
    match m with
    | [] => simp [maskFilter]
    | b :: bs =>
      unfold maskFilter
      rw [List.zip_cons_cons, List.filterMap_cons]
      cases b with
      | true =>
        simp only [if_pos]
        exact (ih bs).cons₂ x
      | false =>
        simp only [if_neg Bool.false_ne_true, Bool.false_eq_true]
        exact (ih bs).cons x

theorem getD_set_true (m : List Bool) (k i : ℕ)
    (h : m.getD i false = true) : (m.set k true).getD i false = true := by
  by_cases hik : i = k
  · subst hik
    have hlt : i < m.length := by
      by_contra hge
      rw [List.getD_eq_default] at h
      · exact Bool.false_ne_true h
      · omega
    rw [List.getD_eq_getElem?_getD, List.getElem?_set_eq_of_lt true hlt]
    rfl
  · rw [List.getD_eq_getElem?_getD, List.getElem?_set_ne (fun h2 => hik h2.symm),
      ← List.getD_eq_getElem?_getD]
    exact h

theorem simplifyStep_some {chain : List (ℚ × ℚ)} {acc acc2 : List Bool}
    (h : simplifyStep chain acc = some acc2) : ∃ k : ℕ, acc2 = acc.set k true := by
  unfold simplifyStep at h
  cases hmax : argmaxQ (chainAreas chain acc) with
  | none =>
    rw [hmax] at h
    exact absurd h (by simp)
  | some ma =>
    rw [hmax] at h
    dsimp only at h
    by_cases hlt : ma.2 < 4
    · rw [if_pos hlt] at h
      exact absurd h (by simp)
    · rw [if_neg hlt] at h
      exact ⟨_, (Option.some_injective _ h).symm⟩

theorem simplifyLoop_length (chain : List (ℚ × ℚ)) :
    ∀ (fuel : ℕ) (acc : List Bool),
      (simplifyLoop chain fuel acc).length = acc.length := by
  intro fuel
  induction fuel with
  | zero => intro acc; rfl
  | succ n ih =>
    intro acc
    unfold simplifyLoop
    cases hstep : simplifyStep chain acc with
    | none => rfl
    | some acc2 =>
      rw [ih acc2]
      obtain ⟨k, rfl⟩ := simplifyStep_some hstep
      rw [List.length_set]

theorem simplifyLoop_preserves (chain : List (ℚ × ℚ)) :
    ∀ (fuel : ℕ) (acc : List Bool) (i : ℕ),
      acc.getD i false = true →
      (simplifyLoop chain fuel acc).getD i false = true := by
  intro fuel
  induction fuel with
  | zero => intro acc i h; exact h
  | succ n ih =>
    intro acc i h
    unfold simplifyLoop
    cases hstep : simplifyStep chain acc with
    | none => exact h
    | some acc2 =>
      refine ih acc2 i ?_
      obtain ⟨k, rfl⟩ := simplifyStep_some hstep
      exact getD_set_true acc k i h

theorem mem_maskFilter_of_getD (l : List (ℚ × ℚ)) :
    ∀ (m : List Bool) (k : ℕ), k < l.length → m.getD k false = true →
      l.getD k (0, 0) ∈ maskFilter l m := by
  induction l with
  | nil => intro m k hk; simp at hk
  | cons x xs ih =>
    intro m k hk hm
    match m with
    | [] =>
      rw [List.getD_eq_default] at hm
      · exact absurd hm Bool.false_ne_true
      · simp
    | b :: bs =>
      unfold maskFilter
      rw [List.zip_cons_cons, List.filterMap_cons]
      match k with
      | 0 =>
        have hb : b = true := by simpa [List.getD] using hm
        rw [hb]
        simp
      | kk + 1 =>
        have hm2 : bs.getD kk false = true := by simpa [List.getD] using hm
        have hk2 : kk < xs.length := by simp at hk; omega
        have hmem := ih bs kk hk2 hm2
        have hgd : (x :: xs).getD (kk + 1) (0, 0) = xs.getD kk (0, 0) := by
          simp [List.getD]
        rw [hgd]
        cases b with
        | true => simp only [if_pos]; exact List.mem_cons_of_mem x hmem
        | false =>
          simp only [Bool.false_eq_true, if_neg, not_false_iff]
          exact hmem

theorem initAccepted_length (n : ℕ) : (initAccepted n).length = n := by
  unfold initAccepted
  rw [List.length_set, List.length_set, List.length_set, List.length_replicate]

theorem initAccepted_getD (n k : ℕ) (hk : k < n)
    (h : k = 0 ∨ k = n - 1 ∨ k = n / 2) : (initAccepted n).getD k false = true := by
  have hlen2 : (((List.replicate n false).set 0 true).set (n - 1) true).length = n := by
    rw [List.length_set, List.length_set, List.length_replicate]
  have hlen1 : ((List.replicate n false).set 0 true).length = n := by
    rw [List.length_set, List.length_replicate]
  rcases h with rfl | rfl | rfl
  · refine getD_set_true _ _ _ (getD_set_true _ _ _ ?_)
    rw [List.getD_eq_getElem?_getD, List.getElem?_set_self (by simpa [List.length_replicate] using hk)]
    rfl
  · refine getD_set_true _ _ _ ?_
    rw [List.getD_eq_getElem?_getD, List.getElem?_set_self (by simpa [hlen1] using hk)]
    rfl
  · unfold initAccepted
    rw [List.getD_eq_getElem?_getD, List.getElem?_set_self (by simpa [hlen2] using hk)]
    rfl

/-- Claim C4 (amended): a closed raw chain is left untouched exactly when
its stored length (raw points plus the closing duplicate) is at most 10,
i.e. up to 9 raw points; longer chains are reduced to a subsequence of
their points that always retains the seeded first point, index-midpoint
and last point, the excluded point of largest triangle area being refined
until that maximum drops below the 4-square-pixel threshold. -/
theorem simplify_chain_spec (chain : List (ℚ × ℚ)) :
    (chain.length ≤ 10 → simplify_chain chain = chain) ∧
    (10 < chain.length →
      (simplify_chain chain).Sublist chain ∧
      chain.getD 0 (0, 0) ∈ simplify_chain chain ∧
      chain.getD (chain.length / 2) (0, 0) ∈ simplify_chain chain ∧
      chain.getD (chain.length - 1) (0, 0) ∈ simplify_chain chain) := by
  constructor
  · intro h
    rw [simplify_chain, if_neg (by omega)]
  · intro h
    have hpos : 0 < chain.length := by omega
    have hopen : simplify_chain chain =
        maskFilter chain
          (simplifyLoop chain chain.length (initAccepted chain.length)) := by
      rw [simplify_chain, if_pos h]
    have hlen : (simplifyLoop chain chain.length
        (initAccepted chain.length)).length = chain.length := by
      rw [simplifyLoop_length, initAccepted_length]
    have hmem : ∀ k : ℕ, k < chain.length →
        (k = 0 ∨ k = chain.length - 1 ∨ k = chain.length / 2) →
        chain.getD k (0, 0) ∈ simplify_chain chain := by
      intro k hk hcase
      rw [hopen]
      refine mem_maskFilter_of_getD chain _ k hk ?_
      exact simplifyLoop_preserves chain chain.length _ k
        (initAccepted_getD chain.length k hk hcase)
    refine ⟨?_, ?_, ?_, ?_⟩
    · rw [hopen]; exact maskFilter_sublist chain _
    · exact hmem 0 hpos (Or.inl rfl)
    · exact hmem (chain.length / 2) (Nat.div_lt_self hpos (by omega))
        (Or.inr (Or.inr rfl))
    · exact hmem (chain.length - 1) (by omega) (Or.inr (Or.inl rfl))

/-- Claim C4, counterexample: a chain of exactly 10 raw points (11 stored)
is simplified — down to its three seed points here — because the source
guard compares the stored length, closing point included, against 10. -/
theorem simplify_short_chain_counterexample :
    c10bar.length = 11 ∧
    simplify_chain c10bar = [(0, 0), (0, 5), (0, 0)] ∧
    simplify_chain c10bar ≠ c10bar := by
  with_unfolding_all decide

/-- Claim C4, witness: the long chain branch at the bar outline and the
untouched branch at a 3-point chain. -/
theorem simplify_chain_spec_witness :
    (10 < c10bar.length ∧
      (simplify_chain c10bar).Sublist c10bar ∧
      c10bar.getD 0 (0, 0) ∈ simplify_chain c10bar ∧
      c10bar.getD (c10bar.length / 2) (0, 0) ∈ simplify_chain c10bar ∧
      c10bar.getD (c10bar.length - 1) (0, 0) ∈ simplify_chain c10bar) ∧
    (([(0, 0), (3, 4), (0, 0)] : List (ℚ × ℚ)).length ≤ 10 ∧
      simplify_chain [(0, 0), (3, 4), (0, 0)] = [(0, 0), (3, 4), (0, 0)]) :=
  ⟨⟨by decide, (simplify_chain_spec c10bar).2 (by decide)⟩,
    ⟨by decide, (simplify_chain_spec [(0, 0), (3, 4), (0, 0)]).1 (by decide)⟩⟩

theorem readPix_erase_one (p : Plane) (lbl i j : ℕ) :
    readPix (p.map (fun row => row.map (fun v => if v = lbl then 0 else v))) i j =
      if readPix p i j = lbl then 0 else readPix p i j := by
  unfold readPix
  simp only [List.getD_eq_getElem?_getD, List.getElem?_map]
  cases hp : p[i]? with
  | none =>
    simp [hp]
  | some row =>
    cases hr : row[j]? with
    | none => simp [hp, hr]
    | some v => simp [hp, hr]

theorem record_undo_artists (s : Session) : (record_undo s).artists = s.artists := rfl

theorem record_undo_labels (s : Session) : (record_undo s).labels = s.labels := rfl

theorem remove_label_clears (s : Session) (lbl : ℕ) :
    ∀ i j : ℕ, ¬ ((i, j, lbl) : T) ∈
      calculate_ijv s.shape (remove_label s lbl).labels := by
  intro i j hmem
  obtain ⟨_, _, hv, p, hp, hread⟩ := mem_calculate_ijv.mp hmem
  rcases List.mem_map.mp hp with ⟨q, _, rfl⟩
  rw [readPix_erase_one] at hread
  by_cases hq : readPix q i j = lbl
  · rw [if_pos hq] at hread
    exact hv hread.symm
  · rw [if_neg hq] at hread
    exact hq hread

/-- Claim C6 (amended): when a control point is picked, a chain currently
holding fewer than 4 stored points is deleted outright (its raster pixels
are cleared when it was the label's last chain), while a chain of 4 or
more stored points — including the 4-point case of 3 distinct points —
merely loses the picked point, keeping one fewer stored point and staying
closed.  The pick index always addresses `pts[:-1]`, giving the stated
index bound. -/
theorem delete_control_point_spec (s : Session) (ev : Event) (ai pi2 : ℕ)
    (hget : get_control_point s.artists ev = some (ai, pi2))
    (hai : ai < s.artists.length) :
    ((s.artists.getD ai default).pts.length < 4 →
      (delete_control_point s ev).artists.length = s.artists.length - 1 ∧
      ((s.artists.eraseIdx ai).all
          (fun d => decide (d.label ≠ (s.artists.getD ai default).label)) = true →
        ∀ i j : ℕ, ¬ ((i, j, (s.artists.getD ai default).label) : T) ∈
          calculate_ijv s.shape (delete_control_point s ev).labels)) ∧
    (4 ≤ (s.artists.getD ai default).pts.length →
      pi2 + 2 ≤ (s.artists.getD ai default).pts.length →
      (delete_control_point s ev).artists.length = s.artists.length ∧
      ((delete_control_point s ev).artists.getD ai default).pts.length =
        (s.artists.getD ai default).pts.length - 1 ∧
      ((delete_control_point s ev).artists.getD ai default).pts.headD (0, 0) =
        ((delete_control_point s ev).artists.getD ai default).pts.getLastD (0, 0)) := by
  have hdel : delete_control_point s ev =
      (if (s.artists.getD ai default).pts.length < 4 then
        record_undo (delete_artist s ai)
      else
        let art := s.artists.getD ai default
        let l := art.pts
        let l2 := l.take pi2 ++ (l.drop (pi2 + 1)).dropLast
        let l3 := l2 ++ l2.take 1
        let art2 : Artist := { art with pts := l3, edited := true }
        record_undo { s with artists := s.artists.set ai art2 }) := by
    unfold delete_control_point
    rw [hget]
  constructor
  · intro hlen
    rw [hdel, if_pos hlen]
    constructor
    · rw [record_undo_artists]
      unfold delete_artist
      dsimp only
      split
      · unfold remove_label
        simp only [List.length_eraseIdx, if_pos hai]
      · rw [List.length_map, List.length_eraseIdx, if_pos hai]
    · intro hall i j
      rw [record_undo_labels]
      unfold delete_artist
      dsimp only
      rw [if_pos hall]
      exact remove_label_clears { s with artists := s.artists.eraseIdx ai }
        (s.artists.getD ai default).label i j
  · intro hlen hpi
    rw [hdel, if_neg (by omega)]
    dsimp only
    simp only [record_undo_artists]
    set art := s.artists.getD ai default with hart
    set l2 := art.pts.take pi2 ++ (art.pts.drop (pi2 + 1)).dropLast with hl2
    have hl2len : l2.length = art.pts.length - 2 := by
      rw [hl2, List.length_append, List.length_take, List.length_dropLast,
        List.length_drop]
      omega
    have hl2pos : 0 < l2.length := by omega
    obtain ⟨a, rest, hcons⟩ :=
      List.exists_cons_of_ne_nil (List.ne_nil_of_length_pos hl2pos)
    have hgd : (s.artists.set ai
        ({ art with pts := l2 ++ l2.take 1, edited := true })).getD ai default =
        { art with pts := l2 ++ l2.take 1, edited := true } := by
      rw [List.getD_eq_getElem?_getD, List.getElem?_set_eq_of_lt _ hai]
      rfl
    refine ⟨by rw [List.length_set], ?_, ?_⟩
    · rw [hgd]
      simp only [List.length_append, List.length_take]
      omega
    · rw [hgd]
      simp only
      rw [hcons]
      simp only [List.take_cons_succ, List.take_zero]
      rw [List.getLastD_eq_getLast?, List.getLast?_concat]
      rfl

/-- Claim C6, counterexample: deleting a control point of a 4-point chain
(3 distinct points) shrinks it to 3 stored points (2 distinct) instead of
deleting the chain, because the source deletes only when the current
stored length is below 4. -/
theorem delete_four_point_counterexample :
    exArtistC6.pts.length = 4 ∧
    (delete_control_point exSessionC6 exEventC6).artists =
      [{ pts := [(10, 10), (15, 18), (10, 10)], label := 1, edited := true,
         outside := true }] := by
  with_unfolding_all decide

/-- Claim C6, witness: the 4-point branch at the triangle session. -/
theorem delete_control_point_spec_witness :
    get_control_point exSessionC6.artists exEventC6 = some (0, 1) ∧
    (delete_control_point exSessionC6 exEventC6).artists.length =
      exSessionC6.artists.length ∧
    ((delete_control_point exSessionC6 exEventC6).artists.getD 0 default).pts.length =
      (exSessionC6.artists.getD 0 default).pts.length - 1 ∧
    ((delete_control_point exSessionC6 exEventC6).artists.getD 0 default).pts.headD (0, 0) =
      ((delete_control_point exSessionC6 exEventC6).artists.getD 0 default).pts.getLastD (0, 0) :=
  ⟨by with_unfolding_all decide,
    ((delete_control_point_spec exSessionC6 exEventC6 0 1
      (by with_unfolding_all decide) (by decide)).2
        (by decide) (by decide)).1,
    ((delete_control_point_spec exSessionC6 exEventC6 0 1
      (by with_unfolding_all decide) (by decide)).2
        (by decide) (by decide)).2.1,
    ((delete_control_point_spec exSessionC6 exEventC6 0 1
      (by with_unfolding_all decide) (by decide)).2
        (by decide) (by decide)).2.2⟩

/-- Claim C3 (amended): a proposed drag destination is rejected as a
silent no-op — the artist list is left exactly as it was — whenever some
artist that survives the overlap filter and the self-adjacent-edge
stripping both fails the on-segment exception for the destination and
intersects the candidate edge pair; a chain on one of whose edges the
destination lands exactly is exempted from the test, so a crossing
elsewhere in that same chain does not force rejection (see the
counterexample). -/
theorem drag_crossing_rejected (s : Session) (activePos activeIndex : ℕ)
    (ev : Event) (activeArtist : Artist)
    (hget : s.artists.get? activePos = some activeArtist)
    (hblock : ∃ ka ∈ s.artists.enum,
      artistBlocksDrag s.allow_overlap activeArtist.label
        activeArtist.pts.dropLast activeArtist.pts.dropLast.length activeIndex
        (dragNewPt s ev) (dragPath3 s activeIndex ev activeArtist) activePos
        ka = true) :
    handle_mouse_moved_active_mode s activePos activeIndex ev = s := by
  have hb : dragBlocked s activePos activeIndex ev activeArtist = true := by
    unfold dragBlocked
    rw [List.any_eq_true]
    exact hblock
  unfold handle_mouse_moved_active_mode
  by_cases hax : (ev.inAxes : Prop)
  · rw [if_neg (by simpa using hax), hget]
    dsimp only
    rw [if_pos hb]
  · rw [if_pos (by simpa using hax)]

/-- Claim C3, counterexample: with overlap disabled, dragging the octagon
point to `(5,5)` makes the candidate edge pair cross the non-adjacent
horizontal edge, yet the move is applied — the point list changes —
because the destination lies exactly on the non-adjacent diagonal edge and
the on-segment exception then skips the whole chain. -/
theorem drag_on_segment_counterexample :
    exSessionC3.allow_overlap = false ∧
    pathsIntersect (dragPath3 exSessionC3 0 exEventC3 exArtistC3)
      (strippedChain exArtistC3.pts.dropLast 0) = true ∧
    onSegmentAny (dragNewPt exSessionC3 exEventC3)
      (strippedChain exArtistC3.pts.dropLast 0) = true ∧
    (handle_mouse_moved_active_mode exSessionC3 0 0 exEventC3).artists ≠
      exSessionC3.artists := by
  with_unfolding_all decide

/-- Claim C3, witness: dragging the octagon point to `(5,6)` crosses the
horizontal edge without landing on any edge per the sign test, and the
move is rejected without modifying the session. -/
theorem drag_crossing_rejected_witness :
    exSessionC3.artists.get? 0 = some exArtistC3 ∧
    (∃ ka ∈ exSessionC3.artists.enum,
      artistBlocksDrag exSessionC3.allow_overlap exArtistC3.label
        exArtistC3.pts.dropLast exArtistC3.pts.dropLast.length 0
        (dragNewPt exSessionC3 exEventC3b)
        (dragPath3 exSessionC3 0 exEventC3b exArtistC3) 0 ka = true) ∧
    handle_mouse_moved_active_mode exSessionC3 0 0 exEventC3b = exSessionC3 :=
  ⟨by decide,
    ⟨(0, exArtistC3), by decide, by with_unfolding_all decide⟩,
    drag_crossing_rejected exSessionC3 0 0 exEventC3b exArtistC3 (by decide)
      ⟨(0, exArtistC3), by decide, by with_unfolding_all decide⟩⟩

theorem getD_range_map {α : Type} (n i : ℕ) (f : ℕ → α) (d : α) :
    ((List.range n).map f).getD i d = if i < n then f i else d := by
  rw [List.getD_eq_getElem?_getD, List.getElem?_map]
  by_cases hlt : i < n
  · rw [List.getElem?_range hlt, if_pos hlt]
    rfl
  · rw [List.getElem?_eq_none (by simpa using hlt), if_neg hlt]
    rfl

theorem readPix_planeOf (shape : ℕ × ℕ) (ijv : List T) (v i j : ℕ) :
    readPix (planeOf shape ijv v) i j =
      if i < shape.1 ∧ j < shape.2 ∧ ((i, j, v) : T) ∈ ijv then v else 0 := by
  unfold readPix planeOf
  rw [getD_range_map]
  by_cases hi : i < shape.1
  · rw [if_pos hi, getD_range_map]
    by_cases hj : j < shape.2
    · rw [if_pos hj]
      by_cases hmem : ((i, j, v) : T) ∈ ijv
      · rw [if_pos hmem, if_pos ⟨hi, hj, hmem⟩]
      · rw [if_neg hmem, if_neg (by tauto)]
    · rw [if_neg hj, if_neg (by tauto)]
  · rw [if_neg hi, if_neg (by tauto)]
    rfl

theorem mem_calculate_ijv_planesFromIJV (shape : ℕ × ℕ) (ijv : List T)
    (i j v : ℕ) :
    ((i, j, v) : T) ∈ calculate_ijv shape (planesFromIJV shape ijv) ↔
      i < shape.1 ∧ j < shape.2 ∧ v ≠ 0 ∧ ((i, j, v) : T) ∈ ijv := by
  rw [mem_calculate_ijv]
  constructor
  · rintro ⟨hi, hj, hv, p, hp, hread⟩
    rcases List.mem_map.mp hp with ⟨u, _, rfl⟩
    rw [readPix_planeOf] at hread
    by_cases hc : i < shape.1 ∧ j < shape.2 ∧ ((i, j, u) : T) ∈ ijv
    · rw [if_pos hc] at hread
      subst hread
      exact ⟨hi, hj, hv, hc.2.2⟩
    · rw [if_neg hc] at hread
      exact absurd hread.symm hv
  · rintro ⟨hi, hj, hv, hmem⟩
    refine ⟨hi, hj, hv, planeOf shape ijv v, ?_, ?_⟩
    · refine List.mem_map.mpr ⟨v, ?_, rfl⟩
      unfold idsOf
      rw [List.mem_dedup]
      exact List.mem_map.mpr ⟨(i, j, v), hmem, rfl⟩
    · rw [readPix_planeOf, if_pos ⟨hi, hj, hmem⟩]

theorem mem_restructure (shape : ℕ × ℕ) (L : List Plane) (i j v : ℕ) :
    ((i, j, v) : T) ∈
        calculate_ijv shape (planesFromIJV shape (calculate_ijv shape L)) ↔
      ((i, j, v) : T) ∈ calculate_ijv shape L := by
  rw [mem_calculate_ijv_planesFromIJV]
  constructor
  · rintro ⟨_, _, _, hmem⟩
    exact hmem
  · intro hmem
    obtain ⟨hi, hj, hv, _⟩ := mem_calculate_ijv.mp hmem
    exact ⟨hi, hj, hv, hmem⟩

theorem readPix_erasePlane (sel : List ℕ) (p : Plane) (i j : ℕ) :
    readPix (erasePlane sel p) i j =
      if readPix p i j ∈ sel then 0 else readPix p i j := by
  unfold erasePlane readPix
  simp only [List.getD_eq_getElem?_getD, List.getElem?_map]
  cases hp : p[i]? with
  | none => simp [hp]
  | some row =>
    cases hr : row[j]? with
    | none => simp [hp, hr]
    | some v => simp [hp, hr]

theorem readPix_join_stamp (shape : ℕ × ℕ) (L : List Plane) (sel : List ℕ)
    (m i j : ℕ) :
    readPix (maskToPlane (joinMask shape L sel) m) i j =
      if i < shape.1 ∧ j < shape.2 ∧ ∃ p ∈ L, readPix p i j ∈ sel then m
      else 0 := by
  unfold maskToPlane joinMask
  rw [List.map_map]
  unfold readPix
  rw [getD_range_map]
  by_cases hi : i < shape.1
  · rw [if_pos hi]
    simp only [Function.comp]
    rw [List.map_map, getD_range_map]
    by_cases hj : j < shape.2
    · rw [if_pos hj]
      simp only [Function.comp]
      by_cases hany :
          (L.any fun l => decide ((List.getD l i []).getD j 0 ∈ sel)) = true
      · simp only [hany, if_pos]
        rw [if_pos ?side]
        case side =>
          refine ⟨hi, hj, ?_⟩
          obtain ⟨p, hp, hdec⟩ := List.any_eq_true.mp hany
          exact ⟨p, hp, by simpa [readPix] using hdec⟩
      · rw [Bool.not_eq_true] at hany
        simp only [hany, Bool.false_eq_true, if_false]
        rw [if_neg ?side2]
        case side2 =>
          intro hc
          rw [Bool.eq_false_iff] at hany
          refine hany (List.any_eq_true.mpr ?_)
          obtain ⟨_, _, p, hp, hmem⟩ := hc
          exact ⟨p, hp, by simpa [readPix] using hmem⟩
    · rw [if_neg hj, if_neg (by tauto)]
  · rw [if_neg hi, if_neg (by tauto)]
    rfl

theorem mem_unique_labels (artists : List Artist) (v : ℕ) :
    v ∈ unique_labels artists ↔ ∃ a ∈ artists, a.label = v := by
  unfold unique_labels
  rw [(List.perm_insertionSort _ _).mem_iff, List.mem_dedup, List.mem_map]

theorem unique_labels_sorted (artists : List Artist) :
    List.Sorted (fun a b : ℕ => a ≤ b) (unique_labels artists) := by
  unfold unique_labels
  exact List.sorted_insertionSort _ _

theorem unique_labels_head_min (artists : List Artist) :
    ∀ v ∈ unique_labels artists, (unique_labels artists).headD 0 ≤ v := by
  have hs := unique_labels_sorted artists
  cases hu : unique_labels artists with
  | nil => intro v hv; simp at hv
  | cons a rest =>
    intro v hv
    rw [hu] at hs
    rcases List.mem_cons.mp hv with rfl | hv2
    · exact le_refl _
    · exact (List.sorted_cons.mp hs).1 v hv2

theorem close_label_shape (s : Session) (lbl : ℕ) :
    (close_label s lbl).shape = s.shape := by
  unfold close_label replace_label restructure_labels remove_label
  dsimp only
  split <;> rfl

theorem foldl_close_label_shape (sel : List ℕ) :
    ∀ s : Session, (sel.foldl close_label s).shape = s.shape := by
  induction sel with
  | nil => intro s; rfl
  | cons a rest ih =>
    intro s
    rw [List.foldl_cons, ih (close_label s a), close_label_shape]

/-- Claim C5: with at least two distinct open labels, Join registers under
the smallest selected identifier exactly the union of the selected
objects' pixels as they stand after their chains are committed
(`close_label`), keeps non-selected pixels unchanged, erases every other
selected identifier from the flattened set, and does nothing when fewer
than two labels are selected. -/
theorem join_objects_union_min (s : Session)
    (h2 : 2 ≤ (unique_labels s.artists).length)
    (h0 : ∀ a ∈ s.artists, a.label ≠ 0) :
    (∀ v ∈ unique_labels s.artists, (unique_labels s.artists).headD 0 ≤ v) ∧
    (∀ i j v : ℕ,
      ((i, j, v) : T) ∈ calculate_ijv s.shape (join_objects s).labels ↔
        (i < s.shape.1 ∧ j < s.shape.2 ∧
          ((v = (unique_labels s.artists).headD 0 ∧
             ∃ q ∈ ((unique_labels s.artists).foldl close_label s).labels,
               readPix q i j ∈ unique_labels s.artists) ∨
           (v ≠ 0 ∧ ¬ v ∈ unique_labels s.artists ∧
             ∃ q ∈ ((unique_labels s.artists).foldl close_label s).labels,
               readPix q i j = v)))) ∧
    (∀ v ∈ unique_labels s.artists, v ≠ (unique_labels s.artists).headD 0 →
      ∀ i j : ℕ,
        ¬ ((i, j, v) : T) ∈ calculate_ijv s.shape (join_objects s).labels) ∧
    (∀ s2 : Session, (unique_labels s2.artists).length < 2 →
      join_objects s2 = s2) := by
  set sel := unique_labels s.artists with hseldef
  set m := sel.headD 0 with hmdef
  set s1 := sel.foldl close_label s with hs1def
  have hshape : s1.shape = s.shape := foldl_close_label_shape sel s
  have hne : sel ≠ [] := by
    intro h
    rw [h] at h2
    simp at h2
  obtain ⟨a, rest, hcons⟩ := List.exists_cons_of_ne_nil hne
  have hm_mem : m ∈ sel := by
    rw [hmdef, hcons]
    exact List.mem_cons_self a rest
  have hsel0 : ∀ v ∈ sel, v ≠ 0 := by
    intro v hv
    obtain ⟨a, ha, rfl⟩ := (mem_unique_labels s.artists v).mp hv
    exact h0 a ha
  have hm_ne : m ≠ 0 := hsel0 m hm_mem
  have hjl : (join_objects s).labels =
      planesFromIJV s1.shape (calculate_ijv s1.shape
        (s1.labels.map (erasePlane sel) ++
          [maskToPlane (joinMask s1.shape s1.labels sel) m])) := by
    unfold join_objects
    rw [if_neg ?hlen]
    case hlen =>
      rw [← hseldef]
      omega
    rfl
  have hiff : ∀ i j v : ℕ,
      ((i, j, v) : T) ∈ calculate_ijv s.shape (join_objects s).labels ↔
        (i < s.shape.1 ∧ j < s.shape.2 ∧
          ((v = m ∧ ∃ q ∈ s1.labels, readPix q i j ∈ sel) ∨
           (v ≠ 0 ∧ ¬ v ∈ sel ∧ ∃ q ∈ s1.labels, readPix q i j = v))) := by
    intro i j v
    rw [hjl, ← hshape, mem_restructure, mem_calculate_ijv]
    constructor
    · rintro ⟨hi, hj, hv, p, hp, hread⟩
      rcases List.mem_append.mp hp with hp2 | hp2
      · rcases List.mem_map.mp hp2 with ⟨q, hq, rfl⟩
        rw [readPix_erasePlane] at hread
        by_cases hqs : readPix q i j ∈ sel
        · rw [if_pos hqs] at hread
          exact absurd hread.symm hv
        · rw [if_neg hqs] at hread
          subst hread
          exact ⟨hi, hj, Or.inr ⟨hv, hqs, q, hq, rfl⟩⟩
      · rcases List.mem_singleton.mp hp2 with rfl
        rw [readPix_join_stamp] at hread
        by_cases hc : i < s1.shape.1 ∧ j < s1.shape.2 ∧
            ∃ p ∈ s1.labels, readPix p i j ∈ sel
        · rw [if_pos hc] at hread
          exact ⟨hi, hj, Or.inl ⟨hread.symm, hc.2.2⟩⟩
        · rw [if_neg hc] at hread
          exact absurd hread.symm hv
    · rintro ⟨hi, hj, hdisj⟩
      rcases hdisj with ⟨rfl, q, hq, hqs⟩ | ⟨hv, hns, q, hq, hqv⟩
      · refine ⟨hi, hj, hm_ne, maskToPlane (joinMask s1.shape s1.labels sel) m,
          List.mem_append.mpr (Or.inr (List.mem_singleton.mpr rfl)), ?_⟩
        rw [readPix_join_stamp, if_pos ⟨hi, hj, q, hq, hqs⟩]
      · refine ⟨hi, hj, hv, erasePlane sel q,
          List.mem_append.mpr (Or.inl (List.mem_map.mpr ⟨q, hq, rfl⟩)), ?_⟩
        rw [readPix_erasePlane, if_neg ?hns2]
        · exact hqv
        case hns2 => rw [hqv]; exact hns
  refine ⟨unique_labels_head_min s.artists, hiff, ?_, ?_⟩
  · intro v hvsel hvne i j hmem
    rcases ((hiff i j v).mp hmem).2.2 with ⟨hveq, _⟩ | ⟨_, hns, _⟩
    · exact hvne hveq
    · exact hns hvsel
  · intro s2 hlt
    unfold join_objects
    rw [if_pos hlt]

/-- Claim C5, witness: joining objects 1 and 2 of the two-pixel session
registers both pixels under identifier 1 and removes identifier 2 from the
flattened set. -/
theorem join_objects_union_min_witness :
    2 ≤ (unique_labels exSessionC5.artists).length ∧
    (unique_labels exSessionC5.artists).headD 0 = 1 ∧
    (((0, 1, 1) : T) ∈
        calculate_ijv exSessionC5.shape (join_objects exSessionC5).labels ↔
      (0 < exSessionC5.shape.1 ∧ 1 < exSessionC5.shape.2 ∧
        ((1 = (unique_labels exSessionC5.artists).headD 0 ∧
           ∃ q ∈ ((unique_labels exSessionC5.artists).foldl close_label
               exSessionC5).labels,
             readPix q 0 1 ∈ unique_labels exSessionC5.artists) ∨
         ((1 : ℕ) ≠ 0 ∧ ¬ (1 : ℕ) ∈ unique_labels exSessionC5.artists ∧
           ∃ q ∈ ((unique_labels exSessionC5.artists).foldl close_label
               exSessionC5).labels,
             readPix q 0 1 = 1)))) ∧
    (∀ i j : ℕ, ¬ ((i, j, 2) : T) ∈
      calculate_ijv exSessionC5.shape (join_objects exSessionC5).labels) :=
  ⟨by decide, by decide,
    (join_objects_union_min exSessionC5 (by decide) (by decide)).2.1 0 1 1,
    (join_objects_union_min exSessionC5 (by decide) (by decide)).2.2.1 2
      (by decide) (by decide)⟩

end CPEdit
